import Mathlib

set_option allowUnsafeReducibility true

attribute [local reducible] Rat.add Rat.mul Rat.inv Rat.sub

/-!
A shallow embedding of the octree spatial index of the point-cloud library
(source file `src/unnamed/part_000`, class `Octree`), together with proofs
about `build`, the traversal primitives, the box queries, the ray search and
the k-nearest-neighbour search.

Modelling conventions:
* JS numbers are modelled as rationals (`ℚ`); all coordinate arithmetic the
  source performs (halving radii, adding offsets, squared distances, exact
  comparisons) is exact on rationals, so `ℚ` is a faithful carrier.
* Location codes are modelled as unbounded naturals.  The JS source applies
  32-bit bitwise operators (`<<`, `|`, `>>>`) to codes; for every code below
  `2 ^ 31` — i.e. for trees of depth at most ten, which covers the default
  `maxDepth = 8` regime the structure is documented for — those 32-bit
  operations agree with the unbounded ones modelled here.
* The JS objects `this.points` / `this.aabbs` are modelled as association
  lists with overwrite-on-store semantics (`store`), keyed by location code.
  A JS `null` value is `none`; an absent key is an absent entry, so a lookup
  yields `some none` for a present-but-null entry and `none` for a missing one.
* Mutating methods thread the octree state explicitly; recursive procedures
  take an explicit `fuel` argument bounding the recursion depth, instantiated
  by their wrappers with `maxDepth + 1`, which never runs out on the
  recursions the source performs (one level of recursion per tree depth).
-/

/-- Modelled from the spec: `Vector3f` (source `../Math/Vector3f`, not under
`src/`) — a 3-component vector; the source stores `components[0..2]`, modelled
as named fields `x`, `y`, `z`. -/
structure Vector3f where
  x : ℚ
  y : ℚ
  z : ℚ
deriving DecidableEq, Repr

/-- Modelled from the spec: `AABB` (source `./AABB`, not under `src/`) — an
axis-aligned cube given by its center and half-edge `radius`, carrying the
location code assigned by `setLocCode` during `build`; `min`/`max` corners are
derived as `center ∓ radius` per axis. -/
structure AABB where
  center : Vector3f
  radius : ℚ
  locCode : ℕ := 0
deriving DecidableEq, Repr

/-- Modelled from the spec: per-axis distance from a coordinate to the closed
interval `[lo, hi]`, zero inside the interval. -/
def axisDist (p lo hi : ℚ) : ℚ :=
  if p < lo then lo - p else if hi < p then p - hi else 0

/-- Modelled from the spec: `AABB.distanceToPointSq` — squared distance from
the nearest surface point of the box to the query point, `0` if the point is
inside the box. -/
def AABB.distanceToPointSq (b : AABB) (x y z : ℚ) : ℚ :=
  axisDist x (b.center.x - b.radius) (b.center.x + b.radius) ^ 2 +
  axisDist y (b.center.y - b.radius) (b.center.y + b.radius) ^ 2 +
  axisDist z (b.center.z - b.radius) (b.center.z + b.radius) ^ 2

/-- Modelled from the spec: `AABB.distanceFromCenterToPointSq` — squared
Euclidean distance from the box center to the query point, ignoring extent. -/
def AABB.distanceFromCenterToPointSq (b : AABB) (x y z : ℚ) : ℚ :=
  (b.center.x - x) ^ 2 + (b.center.y - y) ^ 2 + (b.center.z - z) ^ 2

/-- Fuel-bounded base-2 logarithm (structurally recursive so that it reduces
inside the kernel); agrees with `Nat.log2` whenever `n ≤ fuel`. -/
def msbFuel : ℕ → ℕ → ℕ
  | 0, _ => 0
  | fuel + 1, n => if 2 ≤ n then msbFuel fuel (n / 2) + 1 else 0

/-- Modelled from the spec: `Utils.msb` (source `../Utils/Utils`, not under
`src/`) — index of the most significant set bit, `-1` for `0`; this is the
behaviour `getDepth` documents ("if the msb is at position 6 the depth is 2")
and `generateLocCode` relies on (root case `msb == -1`). -/
def msb (n : ℕ) : ℤ :=
  if n = 0 then -1 else (msbFuel n n : ℤ)

/-- Assignment `m[k] = v` on a JS object modelled as an association list: the
entry for `k` is replaced, all other entries are untouched. -/
def store {α : Type} (m : List (ℕ × α)) (k : ℕ) (v : α) : List (ℕ × α) :=
  (k, v) :: m.filter (fun p => p.1 != k)

/-- The multiset of point indices stored across all leaf entries (the keys of
a points map carrying a non-null list) of a points map. -/
def leafMS (m : List (ℕ × Option (List ℕ))) : Multiset ℕ :=
  ((m.filterMap Prod.snd).map (fun l => (l : Multiset ℕ))).sum

/-- The octree state: `threshold` / `maxDepth` from the constructor, and the
two location-code-keyed maps `points` (point-index list per node, `none` for
JS `null`) and `aabbs`. -/
structure Octree where
  threshold : ℕ
  maxDepth : ℕ
  points : List (ℕ × Option (List ℕ))
  aabbs : List (ℕ × AABB)
deriving Repr

/-- The constructor `new Octree(threshold, maxDepth)`; both fields default via
JS `||` (so a zero argument also selects the default value). -/
def Octree.make (threshold maxDepth : ℕ) : Octree :=
  { threshold := if threshold = 0 then 500 else threshold,
    maxDepth := if maxDepth = 0 then 8 else maxDepth,
    points := [], aabbs := [] }

/-- `Octree.getDepth`: `Utils.msb(locCode) / 3` (JS float division — exact on
the codes `build` generates, whose msb index is a multiple of three). -/
def Octree.getDepth (locCode : ℕ) : ℚ :=
  (msb locCode : ℚ) / 3

/-- `Octree.generateLocCode`: the full child code obtained from the parent
code and the 3-bit octant code. -/
def Octree.generateLocCode (parentCode nodeCode : ℕ) : ℕ :=
  if msb parentCode = -1 then
    nodeCode ||| 8
  else
    (parentCode <<< 3) ||| nodeCode

/-- `Octree.getParent`: the location code shifted right by three. -/
def Octree.getParent (locCode : ℕ) : ℕ :=
  locCode >>> 3

/-- `k` lies in the location-code region descending from `lc` (including `lc`
itself): some number of 3-bit child selectors appended to `lc` yields `k`. -/
def Octree.desc (lc k : ℕ) : Prop :=
  ∃ n : ℕ, lc * 8 ^ n ≤ k ∧ k < (lc + 1) * 8 ^ n

/-- The octant classification in `build`: bit 2 set iff `x ≥ center.x`, bit 1
iff `y ≥ center.y`, bit 0 iff `z ≥ center.z` (`codes[i]` in the source). -/
def Octree.pointOctant (vertices : ℕ → ℚ) (center : Vector3f) (idx : ℕ) : ℕ :=
  let k := idx * 3
  (if center.x ≤ vertices k then 4 else 0) |||
  (if center.y ≤ vertices (k + 1) then 2 else 0) |||
  (if center.z ≤ vertices (k + 2) then 1 else 0)

/-- The constructor's fixed `offsets` table (child-center offsets in units of
the parent radius). -/
def Octree.offsets : List (ℚ × ℚ × ℚ) :=
  [(-1/2, -1/2, -1/2), (-1/2, -1/2, 1/2), (-1/2, 1/2, -1/2), (-1/2, 1/2, 1/2),
   (1/2, -1/2, -1/2), (1/2, -1/2, 1/2), (1/2, 1/2, -1/2), (1/2, 1/2, 1/2)]

/-- The child box created by `build` for octant `i`: the parent center plus
`offsets[i]` scaled by the parent radius, at half the parent radius. -/
def Octree.childAABB (aabb : AABB) (i : ℕ) : AABB :=
  let o := Octree.offsets.getD i (0, 0, 0)
  { center := { x := aabb.center.x + o.1 * aabb.radius,
                y := aabb.center.y + o.2.1 * aabb.radius,
                z := aabb.center.z + o.2.2 * aabb.radius },
    radius := 1/2 * aabb.radius,
    locCode := 0 }

/-- The child loop of `build` (`for (i = 0; i < 8; i++)`): for each octant in
`l`, partition out the points classified into that octant and recurse via
`recurse` when the octant is non-empty; empty octants create no node. -/
def Octree.childFold (recurse : Octree → List ℕ → AABB → ℕ → Octree)
    (vertices : ℕ → ℚ) (pointIndices : List ℕ) (aabb : AABB) (locCode : ℕ) :
    List ℕ → Octree → Octree
  | [], o => o
  | i :: rest, o =>
    let next := pointIndices.filter (fun idx => Octree.pointOctant vertices aabb.center idx == i)
    let o2 := if next.isEmpty then o
              else recurse o next (Octree.childAABB aabb i) (Octree.generateLocCode locCode i)
    Octree.childFold recurse vertices pointIndices aabb locCode rest o2

/-- `Octree.build`, fuel-bounded: records the box (with its location code
assigned) and a `null` points entry for the node; if the point count is at
most `threshold` or the depth has reached `maxDepth`, stores the index list
as this node's points (leaf); otherwise classifies every point into one of
eight octants and recurses into each non-empty octant with a half-radius
child box and a child location code. -/
def Octree.buildAux (vertices : ℕ → ℚ) :
    ℕ → Octree → List ℕ → AABB → ℕ → Octree
  | 0, o, _, _, _ => o
  | fuel + 1, o, pointIndices, aabb0, locCode =>
    let aabb : AABB := { aabb0 with locCode := locCode }
    let o1 : Octree := { o with points := store o.points locCode none,
                                aabbs := store o.aabbs locCode aabb }
    if pointIndices.length ≤ o1.threshold ∨ (o1.maxDepth : ℚ) ≤ Octree.getDepth locCode then
      { o1 with points := store o1.points locCode (some pointIndices) }
    else
      Octree.childFold (fun o2 pts bb lc => Octree.buildAux vertices fuel o2 pts bb lc)
        vertices pointIndices aabb locCode (List.range 8) o1

/-- `Octree.build` invoked, as the library does, at the root location code `1`;
the fuel `maxDepth + 1` covers one recursion level per depth `0..maxDepth` and
is never exhausted starting from the root. -/
def Octree.build (o : Octree) (pointIndices : List ℕ) (vertices : ℕ → ℚ)
    (aabb : AABB) : Octree :=
  Octree.buildAux vertices (o.maxDepth + 1) o pointIndices aabb 1

/-- `Octree.getLocCodes`: the keys of the box map. -/
def Octree.getLocCodes (o : Octree) : List ℕ :=
  o.aabbs.map Prod.fst

/-- `Octree.traverse`, fuel-bounded: the list of `(points, box, locCode)`
visits in source callback order — for each octant `i` of the current node, if
the child has a recorded box it is visited and its subtree traversed.  The
value passed for `points` is the map entry flattened (`undefined` and `null`
both become `none`, which is how every source callback tests it). -/
def Octree.traverseAux (o : Octree) : ℕ → ℕ → List (Option (List ℕ) × AABB × ℕ)
  | 0, _ => []
  | fuel + 1, locCode =>
    (List.range 8).flatMap (fun i =>
      let next := (locCode <<< 3) ||| i
      match List.lookup next o.aabbs with
      | some box => ((List.lookup next o.points).join, box, next) :: o.traverseAux fuel next
      | none => [])

/-- `Octree.traverse` from the root with fuel `maxDepth + 1` (sufficient for
every tree `build` produces). -/
def Octree.traverse (o : Octree) : List (Option (List ℕ) × AABB × ℕ) :=
  o.traverseAux (o.maxDepth + 1) 1

/-- The location codes of the nodes `traverse` visits, in visit order. -/
def Octree.visitedCodes (o : Octree) : List ℕ :=
  o.traverse.map (fun t => t.2.2)

/-- `Octree.traverseIf`, fuel-bounded: like `traverse`, but a child failing
the condition callback is skipped together with its whole subtree. -/
def Octree.traverseIfAux (o : Octree) (cond : AABB → ℕ → Bool) :
    ℕ → ℕ → List (Option (List ℕ) × AABB × ℕ)
  | 0, _ => []
  | fuel + 1, locCode =>
    (List.range 8).flatMap (fun i =>
      let next := (locCode <<< 3) ||| i
      match List.lookup next o.aabbs with
      | some box =>
        if cond box next then
          ((List.lookup next o.points).join, box, next) :: o.traverseIfAux cond fuel next
        else []
      | none => [])

/-- `Octree.traverseIf` from the root with fuel `maxDepth + 1`. -/
def Octree.traverseIf (o : Octree) (cond : AABB → ℕ → Bool) :
    List (Option (List ℕ) × AABB × ℕ) :=
  o.traverseIfAux cond (o.maxDepth + 1) 1

/-- `Octree.raySearch`, with the raycaster-dependent `AABB.cylinderTest`
pruning predicate abstracted as `cylTest` (the `AABB` and `Raycaster` sources
are not under `src/`; the source's condition closure applies the test to the
box only, all other arguments being fixed by the ray).  Returns
`{index, locCode}` pairs: first every point of the root node (location code
1), then the points of every node surviving `traverseIf`. -/
def Octree.raySearch (o : Octree) (cylTest : AABB → Bool) : List (ℕ × ℕ) :=
  let rootPart :=
    match (List.lookup 1 o.points).join with
    | some l => l.map (fun i => (i, 1))
    | none => []
  rootPart ++
    (o.traverseIf (fun box _ => cylTest box)).foldl
      (fun acc t =>
        match t.1 with
        | some pts => acc ++ pts.map (fun i => (i, t.2.2))
        | none => acc) []

/-- The child-selection loop shared by `getClosestBox`,
`getClosestBoxFromCenter` and `getFarthestBox`: scan the eight child slots of
`locCode`; a child with a recorded box is a candidate unless its point list is
non-null with fewer than `threshold` entries; keep the candidate minimizing
`dist` (strict improvement, so the first minimizer wins ties — in the source
the first candidate always beats the initial `Number.MAX_VALUE`). -/
def Octree.closestChild (o : Octree) (dist : AABB → ℚ) (threshold locCode : ℕ) :
    Option (ℕ × ℚ) :=
  (List.range 8).foldl (fun best i =>
    let next := (locCode <<< 3) ||| i
    match List.lookup next o.aabbs with
    | none => best
    | some box =>
      let skip : Bool :=
        match (List.lookup next o.points).join with
        | some pts => pts.length < threshold
        | none => false
      if skip then best
      else
        let d := dist box
        match best with
        | none => some (next, d)
        | some pr => if d < pr.2 then some (next, d) else best) none

/-- `Octree.getClosestBox`, fuel-bounded: select among the children of the
current node the box closest to the point by `distanceToPointSq`, skipping
children under the threshold; recurse into the selected child, and return the
current node's box when no child qualifies. -/
def Octree.getClosestBoxAux (o : Octree) (point : Vector3f) (threshold : ℕ) :
    ℕ → ℕ → Option AABB
  | 0, locCode => List.lookup locCode o.aabbs
  | fuel + 1, locCode =>
    match Octree.closestChild o
        (fun b => b.distanceToPointSq point.x point.y point.z) threshold locCode with
    | none => List.lookup locCode o.aabbs
    | some sel => o.getClosestBoxAux point threshold fuel sel.1

/-- `Octree.getClosestBox` with fuel `maxDepth + 1` (sufficient for every tree
`build` produces), starting at the root by default. -/
def Octree.getClosestBox (o : Octree) (point : Vector3f) (threshold : ℕ)
    (locCode : ℕ := 1) : Option AABB :=
  o.getClosestBoxAux point threshold (o.maxDepth + 1) locCode

/-- `Octree.getClosestBoxFromCenter` as the source implements it: one
child-selection step using `distanceFromCenterToPointSq`, after which it
recurses into `getClosestBox` — i.e. every level below the first is selected
by `distanceToPointSq`, not by the center distance. -/
def Octree.getClosestBoxFromCenter (o : Octree) (point : Vector3f)
    (threshold : ℕ) (locCode : ℕ := 1) : Option AABB :=
  match Octree.closestChild o
      (fun b => b.distanceFromCenterToPointSq point.x point.y point.z) threshold locCode with
  | none => List.lookup locCode o.aabbs
  | some sel => o.getClosestBox point threshold sel.1

/-- Modelled from the spec: the center-distance descent as the specification
(and the method's own documentation) states it — the same one-level-at-a-time
selection as `getClosestBox`, but using `distanceFromCenterToPointSq` at every
level of the recursion. -/
def Octree.getClosestBoxFromCenterSpecAux (o : Octree) (point : Vector3f)
    (threshold : ℕ) : ℕ → ℕ → Option AABB
  | 0, locCode => List.lookup locCode o.aabbs
  | fuel + 1, locCode =>
    match Octree.closestChild o
        (fun b => b.distanceFromCenterToPointSq point.x point.y point.z) threshold locCode with
    | none => List.lookup locCode o.aabbs
    | some sel => o.getClosestBoxFromCenterSpecAux point threshold fuel sel.1

/-- Modelled from the spec: wrapper for the all-levels center-distance
descent, with the same fuel policy as `getClosestBox`. -/
def Octree.getClosestBoxFromCenterSpec (o : Octree) (point : Vector3f)
    (threshold : ℕ) (locCode : ℕ := 1) : Option AABB :=
  o.getClosestBoxFromCenterSpecAux point threshold (o.maxDepth + 1) locCode

/-- `Octree.getCellDistancesToPoint`: collect, via `traverse`, the location
codes of every node with a non-empty point list other than `locCode`, and the
squared box distances from the query point to those cells. -/
def Octree.getCellDistancesToPoint (o : Octree) (x y z : ℚ) (locCode : ℕ) :
    List ℕ × List ℚ :=
  let locCodes := o.traverse.filterMap (fun t =>
    match t.1 with
    | some pts => if 0 < pts.length ∧ t.2.2 ≠ locCode then some t.2.2 else none
    | none => none)
  (locCodes,
   locCodes.map (fun c =>
     (((List.lookup c o.aabbs).map (fun b => b.distanceToPointSq x y z)).getD 0)))

/-- `Octree.pointDistancesSq`: the indices stored at `locCode` and their
squared distances to the query point.  The source reads `this.points[locCode]`
unconditionally (a call with a null or absent entry throws in JS); the model
totalizes that read with the empty list, and theorems about this function are
about calls on leaf codes, where the entry is a list. -/
def Octree.pointDistancesSq (o : Octree) (x y z : ℚ) (locCode : ℕ)
    (positions : List ℚ) : List ℕ × List ℚ :=
  let pts := ((List.lookup locCode o.points).join).getD []
  (pts,
   pts.map (fun pi =>
     let index := pi * 3
     (positions.getD index 0 - x) ^ 2 + (positions.getD (index + 1) 0 - y) ^ 2 +
       (positions.getD (index + 2) 0 - z) ^ 2))

/-- Stable ascending insertion of a keyed element (a later element lands after
the equal keys already placed). -/
def insertAsc (x : ℚ × ℕ) : List (ℚ × ℕ) → List (ℚ × ℕ)
  | [] => [x]
  | y :: ys => if y.1 ≤ x.1 then y :: insertAsc x ys else x :: y :: ys

/-- Modelled from the spec: `RadixSort.sort(arr, true)` (source
`../Math/RadixSort`, not under `src/`) — sorts ascending, is stable (equal
keys keep their original order), and returns both the sorted array and the
permutation of original indices; modelled as a stable insertion sort on the
`(value, original index)` pairs. -/
def radixSortQ (l : List ℚ) : List ℚ × List ℕ :=
  let sorted := (l.zip (List.range l.length)).foldl (fun acc x => insertAsc x acc) []
  (sorted.map Prod.fst, sorted.map Prod.snd)

/-- `Octree.mergePointDistances` / `concatTypedArrays`: concatenation of the
index and distance arrays of two point-distance records. -/
def Octree.mergePointDistances (a b : List ℕ × List ℚ) : List ℕ × List ℚ :=
  (a.1 ++ b.1, a.2 ++ b.2)

/-- The in-cell consumption loop of `kNearestNeighbours` (used both for the
initial cell and, with a fresh start offset, for each merged cell): starting
at position `i`, while fewer than `kk` indices are gathered and positions
remain, stop as soon as the current sorted distance exceeds `bound` (an
absent bound — JS reads past the end of the cell array — never stops the
loop, like the `NaN` comparison in JS), otherwise write the picked index at
position `i` (`List.set` ignores out-of-range writes exactly like a JS typed
array) and continue.  Returns the updated `(indices, indexCount, pointOffset)`
where `pointOffset` is the stop position if the bound fired, the caller's
value otherwise.  The `fuel` only bounds iterations; callers pass the array
length, which the `i < length` guard makes exact. -/
def knnInnerLoop (sortedArr : List ℚ) (bound : Option ℚ) (pick : ℕ → ℕ) (kk : ℕ) :
    ℕ → ℕ → List ℕ → ℕ → ℕ → List ℕ × ℕ × ℕ
  | 0, _, indices, indexCount, pointOffset => (indices, indexCount, pointOffset)
  | fuel + 1, i, indices, indexCount, pointOffset =>
    if indexCount < kk ∧ i < sortedArr.length then
      if (match bound with
          | some c => decide (c < sortedArr.getD i 0)
          | none => false) then
        (indices, indexCount, i)
      else
        knnInnerLoop sortedArr bound pick kk fuel (i + 1) (indices.set i (pick i))
          (indexCount + 1) pointOffset
    else (indices, indexCount, pointOffset)

/-- The cell-expansion loop of `kNearestNeighbours`: for each remaining cell
in ascending distance order, merge that cell's point distances into the
candidate record, re-sort, consume from the remembered offset bounded by the
next cell's distance, and return early once `kk` indices are gathered or the
candidate count reaches `totalPoints - 1`. -/
def Octree.knnCellLoop (o : Octree) (x y z : ℚ) (positions : List ℚ)
    (cellCodes : List ℕ) (cellSortedVals : List ℚ) (cellSortedIdx : List ℕ)
    (kk : ℕ) (len : ℚ) :
    ℕ → ℕ → List ℕ × List ℚ → List ℕ → ℕ → ℕ → List ℕ
  | 0, _, _, indices, _, _ => indices
  | fuel + 1, i, pointDistances, indices, indexCount, pointOffset =>
    if i < cellSortedVals.length then
      let locCode2 := cellCodes.getD (cellSortedIdx.getD i 0) 0
      let newPD := o.pointDistancesSq x y z locCode2 positions
      let pd := Octree.mergePointDistances pointDistances newPD
      let sorted := radixSortQ pd.2
      let r := knnInnerLoop sorted.1 (cellSortedVals.get? (i + 1))
          (fun j => pd.1.getD (sorted.2.getD j 0) 0) kk sorted.1.length
          pointOffset indices indexCount pointOffset
      if r.2.1 = kk ∨ len - 1 ≤ (r.2.1 : ℚ) then r.1
      else
        Octree.knnCellLoop o x y z positions cellCodes cellSortedVals cellSortedIdx
          kk len fuel (i + 1) pd r.1 r.2.1 r.2.2
    else indices

/-- `Octree.kNearestNeighbours`: `k` is incremented on entry ("account for the
fact that the point itself should be returned as well"); the query point is
taken as coordinates (the source's number-index branch assigns to a shadowed
variable and has no effect); a `none` location code is resolved through
`getClosestBoxFromCenter` (reading `.locCode` of the result, `0` standing for
the JS crash on an undefined result); the answer is the fixed-size result
array `indices = new Uint32Array(k)`, zero-initialized, returned on every
path. -/
def Octree.kNearestNeighbours (o : Octree) (k : ℕ) (x y z : ℚ)
    (locCode? : Option ℕ) (positions : List ℚ) : List ℕ :=
  let kk := k + 1
  let len : ℚ := (positions.length : ℚ) / 3
  let locCode := match locCode? with
    | some c => c
    | none => (((o.getClosestBoxFromCenter ⟨x, y, z⟩ 0 1)).map AABB.locCode).getD 0
  let cellDistances := o.getCellDistancesToPoint x y z locCode
  let pointDistances := o.pointDistancesSq x y z locCode positions
  let sortedPoint := radixSortQ pointDistances.2
  let sortedCell := radixSortQ cellDistances.2
  let indices := List.replicate kk 0
  let r1 := knnInnerLoop sortedPoint.1 (sortedCell.1.get? 0)
      (fun i => pointDistances.1.getD (sortedPoint.2.getD i 0) 0) kk
      sortedPoint.1.length 0 indices 0 0
  if r1.2.1 = kk then r1.1
  else
    Octree.knnCellLoop o x y z positions cellDistances.1 sortedCell.1 sortedCell.2
      kk len (cellDistances.1.length + 1) 0 pointDistances r1.1 r1.2.1 r1.2.2

/-- A flat JS coordinate buffer as a total read function (out-of-range reads
default to 0; all reads the theorems exercise are in range). -/
def vertsOf (l : List ℚ) : ℕ → ℚ := fun n => l.getD n 0

/-- The spec's worked example, coordinate buffer: five points
`(0,0,0), (0,0,1), (0,1,0), (1,0,0), (5,5,5)`. -/
def vExample : ℕ → ℚ := vertsOf [0,0,0, 0,0,1, 0,1,0, 1,0,0, 5,5,5]

/-- The spec's worked example, root box: center `(0,0,0)`, radius 8. -/
def rootExample : AABB := { center := ⟨0, 0, 0⟩, radius := 8 }

/-- The spec's worked example: `threshold = 2`, `maxDepth = 4`, built over the
five example points. -/
def oExample : Octree := (Octree.make 2 4).build [0, 1, 2, 3, 4] vExample rootExample

/-- A one-point build over the same root box: the root is a leaf. -/
def oLeafRoot : Octree := (Octree.make 2 4).build [0] vExample rootExample

/-- Coordinate buffer for the center-descent divergence example: a point in
`[2,4]^3` and a point in `[0,2]^3`. -/
def vCenterEx : ℕ → ℚ := vertsOf [5/2, 5/2, 5/2, 3/2, 3/2, 3/2]

/-- Root box for the center-descent divergence example. -/
def rootCenterEx : AABB := { center := ⟨0, 0, 0⟩, radius := 4 }

/-- Octree for the center-descent divergence example: `threshold = 1`, both
points land in root octant 7, which splits into the two depth-2 leaves
`120` (box center `(1,1,1)`) and `127` (box center `(3,3,3)`). -/
def oCenterEx : Octree := (Octree.make 1 8).build [0, 1] vCenterEx rootCenterEx

/-- Query point for the center-descent divergence example. -/
def qCenterEx : Vector3f := ⟨1, 1, 15/4⟩

/-- Coordinate buffer of the two-point KNN example. -/
def posKnnEx : List ℚ := [0, 0, 0, 1, 0, 0]

/-- Octree of the KNN example: `threshold = 2` keeps both points in the root
leaf, whose location code is 1. -/
def oKnnEx : Octree :=
  (Octree.make 2 8).build [0, 1] (vertsOf posKnnEx) { center := ⟨0, 0, 0⟩, radius := 2 }

theorem msbFuel_log : ∀ fuel n : ℕ, n ≤ fuel → msbFuel fuel n = Nat.log 2 n := by
  intro fuel
  induction fuel with
  | zero =>
    intro n hn
    interval_cases n
    simp [msbFuel]
  | succ fuel ih =>
    intro n hn
    by_cases h2 : 2 ≤ n
    · have hdiv : n / 2 ≤ fuel := by
        have := Nat.div_lt_self (by omega : 0 < n) (by norm_num : 1 < 2)
        omega
      rw [msbFuel, if_pos h2, ih _ hdiv, Nat.log_of_one_lt_of_le (by norm_num) h2]
    · rw [msbFuel, if_neg h2, Nat.log_of_lt (by omega)]

theorem msb_of_interval {n k : ℕ} (h1 : 2 ^ n ≤ k) (h2 : k < 2 ^ (n + 1)) :
    msb k = (n : ℤ) := by
  have hk : k ≠ 0 := by
    have : 0 < 2 ^ n := Nat.pos_pow_of_pos n (by norm_num)
    omega
  rw [msb, if_neg hk, msbFuel_log k k le_rfl,
    show Nat.log 2 k = n from Nat.log_eq_of_pow_le_of_lt_pow h1 h2]

theorem pow8_eq (n : ℕ) : (8 : ℕ) ^ n = 2 ^ (3 * n) := by
  rw [show (8 : ℕ) = 2 ^ 3 by norm_num, ← pow_mul]

theorem getDepth_of_interval {n k : ℕ} (h1 : 8 ^ n ≤ k) (h2 : k < 2 * 8 ^ n) :
    Octree.getDepth k = (n : ℚ) := by
  have hmsb : msb k = ((3 * n : ℕ) : ℤ) := by
    apply msb_of_interval
    · rw [← pow8_eq]
      exact h1
    · rw [pow_succ, mul_comm _ 2, ← pow8_eq]
      exact h2
  rw [Octree.getDepth, hmsb]
  push_cast
  ring

theorem lor_small (a : ℕ) {i : ℕ} (h : i < 8) : (a <<< 3) ||| i = a * 8 + i := by
  apply Nat.eq_of_testBit_eq
  intro b
  rw [Nat.testBit_lor, Nat.testBit_shiftLeft]
  rcases Nat.lt_or_ge b 3 with hb | hb
  · interval_cases b <;>
      · simp [Nat.testBit_to_div_mod]
        try omega
  · have hi8 : i < 2 ^ b := by
      calc i < 8 := h
      _ = 2 ^ 3 := by norm_num
      _ ≤ 2 ^ b := Nat.pow_le_pow_right (by norm_num) hb
    have hd : b ≥ 3 := hb
    simp only [hd, decide_eq_true, Bool.true_and, Nat.testBit_lt_two_pow hi8, Bool.or_false]
    rw [Nat.testBit_to_div_mod, Nat.testBit_to_div_mod, decide_eq_decide]
    have key : (a * 8 + i) / 2 ^ b = a / 2 ^ (b - 3) := by
      have hb' : (2 : ℕ) ^ b = 8 * 2 ^ (b - 3) := by
        rw [show (8 : ℕ) = 2 ^ 3 by norm_num, ← pow_add]
        congr 1
        omega
      have h8 : (a * 8 + i) / 8 = a := by omega
      rw [hb', ← Nat.div_div_eq_div_mul, h8]
    rw [key]

theorem child_code_eq (a : ℕ) {i : ℕ} (h : i < 8) : (a <<< 3) ||| i = 8 * a + i := by
  rw [lor_small a h]
  ring

theorem msb_nonneg {k : ℕ} (h : k ≠ 0) : msb k ≠ -1 := by
  rw [msb, if_neg h]
  omega

theorem genLocCode_eq {lc : ℕ} (h1 : 1 ≤ lc) {i : ℕ} (h2 : i < 8) :
    Octree.generateLocCode lc i = 8 * lc + i := by
  rw [Octree.generateLocCode, if_neg (msb_nonneg (by omega))]
  exact child_code_eq lc h2

theorem getParent_div (lc : ℕ) : Octree.getParent lc = lc / 8 := by
  rw [Octree.getParent, Nat.shiftRight_eq_div_pow]

/-- C9.  Round-trip of the location-code arithmetic: for every parent code
with a leading sentinel bit (`1 ≤ p`) whose value leaves room for one more
3-bit level within the 32-bit integer width (`p < 2 ^ 28`) and every octant
code `i < 8`, `getParent (generateLocCode p i) = p`. -/
theorem getParent_generateLocCode (p i : ℕ) (hp : 1 ≤ p) (hw : p < 2 ^ 28)
    (hi : i < 8) : Octree.getParent (Octree.generateLocCode p i) = p := by
  rw [genLocCode_eq hp hi, getParent_div]
  omega

/-- Witness for C9 at `p = 9`, `i = 3`. -/
theorem getParent_generateLocCode_witness :
    1 ≤ 9 ∧ 9 < 2 ^ 28 ∧ 3 < 8 ∧
      Octree.getParent (Octree.generateLocCode 9 3) = 9 :=
  ⟨by norm_num, by norm_num, by norm_num,
    getParent_generateLocCode 9 3 (by norm_num) (by norm_num) (by norm_num)⟩

theorem desc_refl (lc : ℕ) : Octree.desc lc lc :=
  ⟨0, by simp, by simp⟩

theorem desc_le {lc k : ℕ} (h : Octree.desc lc k) : lc ≤ k := by
  obtain ⟨n, h1, h2⟩ := h
  calc lc = lc * 1 := by ring
  _ ≤ lc * 8 ^ n := Nat.mul_le_mul_left lc (Nat.one_le_pow n 8 (by norm_num))
  _ ≤ k := h1

theorem desc_child (lc : ℕ) {i : ℕ} (h : i < 8) : Octree.desc lc (8 * lc + i) :=
  ⟨1, by simp [pow_one]; omega, by simp [pow_one]; omega⟩

theorem desc_trans {a b c : ℕ} (h1 : Octree.desc a b) (h2 : Octree.desc b c) :
    Octree.desc a c := by
  obtain ⟨n, hn1, hn2⟩ := h1
  obtain ⟨m, hm1, hm2⟩ := h2
  refine ⟨n + m, ?_, ?_⟩
  · calc a * 8 ^ (n + m) = (a * 8 ^ n) * 8 ^ m := by ring
    _ ≤ b * 8 ^ m := Nat.mul_le_mul_right _ hn1
    _ ≤ c := hm1
  · calc c < (b + 1) * 8 ^ m := hm2
    _ ≤ ((a + 1) * 8 ^ n) * 8 ^ m := Nat.mul_le_mul_right _ hn2
    _ = (a + 1) * 8 ^ (n + m) := by ring

theorem desc_interval_div {lc k n : ℕ} (h1 : lc * 8 ^ n ≤ k)
    (h2 : k < (lc + 1) * 8 ^ n) {m : ℕ} (hm : m ≤ n) :
    lc * 8 ^ (n - m) ≤ k / 8 ^ m ∧ k / 8 ^ m < (lc + 1) * 8 ^ (n - m) := by
  have hpow : (0 : ℕ) < 8 ^ m := Nat.pos_pow_of_pos m (by norm_num)
  have hsplit : (8 : ℕ) ^ n = 8 ^ (n - m) * 8 ^ m := by
    rw [← pow_add]
    congr 1
    omega
  constructor
  · rw [Nat.le_div_iff_mul_le hpow, mul_assoc, ← hsplit]
    exact h1
  · rw [Nat.div_lt_iff_lt_mul hpow, mul_assoc, ← hsplit]
    exact h2

theorem desc_div_eq {lc k n : ℕ} (h1 : lc * 8 ^ n ≤ k) (h2 : k < (lc + 1) * 8 ^ n) :
    k / 8 ^ n = lc := by
  have h := desc_interval_div h1 h2 (le_refl n)
  simp at h
  omega

theorem desc_child_region {lc : ℕ} {i : ℕ} (hi : i < 8) {k : ℕ}
    (h : Octree.desc (8 * lc + i) k) : Octree.desc lc k :=
  desc_trans (desc_child lc hi) h

theorem desc_child_ne {lc : ℕ} (hlc : 1 ≤ lc) {i : ℕ} {k : ℕ}
    (h : Octree.desc (8 * lc + i) k) : k ≠ lc := by
  have := desc_le h
  omega

theorem desc_child_disjoint {lc i j k : ℕ} (hlc : 1 ≤ lc) (hi : i < 8) (hj : j < 8)
    (hij : i ≠ j) (h1 : Octree.desc (8 * lc + i) k) (h2 : Octree.desc (8 * lc + j) k) :
    False := by
  obtain ⟨n, hn1, hn2⟩ := h1
  obtain ⟨m, hm1, hm2⟩ := h2
  have key : ∀ {A B N M : ℕ}, N < M → A * 8 ^ N ≤ k → k < (A + 1) * 8 ^ N →
      B * 8 ^ M ≤ k → k < (B + 1) * 8 ^ M → B ≤ A / 8 := by
    intro A B N M hNM hA1 hA2 hB1 hB2
    have hA : k / 8 ^ N = A := desc_div_eq hA1 hA2
    have hB : k / 8 ^ M = B := desc_div_eq hB1 hB2
    have hsplit : (8 : ℕ) ^ M = 8 ^ N * 8 ^ (M - N) := by
      rw [← pow_add]
      congr 1
      omega
    have hBA : B = A / 8 ^ (M - N) := by
      rw [← hB, hsplit, ← Nat.div_div_eq_div_mul, hA]
    have h8 : (8 : ℕ) ≤ 8 ^ (M - N) := by
      calc (8 : ℕ) = 8 ^ 1 := by norm_num
      _ ≤ 8 ^ (M - N) := Nat.pow_le_pow_right (by norm_num) (by omega)
    rw [hBA]
    exact Nat.div_le_div_left h8 (by norm_num)
  rcases Nat.lt_trichotomy n m with hlt | heq | hgt
  · have hk := key hlt hn1 hn2 hm1 hm2
    omega
  · subst heq
    have hA : k / 8 ^ n = 8 * lc + i := desc_div_eq hn1 hn2
    have hB : k / 8 ^ n = 8 * lc + j := desc_div_eq hm1 hm2
    omega
  · have hk := key hgt hm1 hm2 hn1 hn2
    omega

theorem desc_elim_child {lc k : ℕ} (h : Octree.desc lc k) (hne : k ≠ lc) :
    ∃ i, i < 8 ∧ Octree.desc (8 * lc + i) k := by
  obtain ⟨n, h1, h2⟩ := h
  cases n with
  | zero =>
    simp at h1 h2
    omega
  | succ n' =>
    have hdiv := desc_interval_div h1 h2 (by omega : n' ≤ n' + 1)
    have hsub : n' + 1 - n' = 1 := by omega
    rw [hsub, pow_one] at hdiv
    set A := k / 8 ^ n' with hA
    refine ⟨A - 8 * lc, by omega, ⟨n', ?_, ?_⟩⟩
    · have hAk : A * 8 ^ n' ≤ k := by
        rw [hA]
        exact Nat.div_mul_le_self k (8 ^ n')
      have : 8 * lc + (A - 8 * lc) = A := by omega
      rw [this]
      exact hAk
    · have hpos : (0 : ℕ) < 8 ^ n' := Nat.pos_pow_of_pos n' (by norm_num)
      have hAk : k < (A + 1) * 8 ^ n' := by
        rw [hA]
        calc k = 8 ^ n' * (k / 8 ^ n') + k % 8 ^ n' := (Nat.div_add_mod k (8 ^ n')).symm
        _ < 8 ^ n' * (k / 8 ^ n') + 8 ^ n' := Nat.add_lt_add_left (Nat.mod_lt k hpos) _
        _ = (k / 8 ^ n' + 1) * 8 ^ n' := by ring
      have : 8 * lc + (A - 8 * lc) + 1 = A + 1 := by omega
      rw [this]
      exact hAk

theorem lookup_filter_ne {α : Type} {k k2 : ℕ} (h : k2 ≠ k) :
    ∀ m : List (ℕ × α),
      List.lookup k2 (m.filter (fun p => p.1 != k)) = List.lookup k2 m := by
  intro m
  induction m with
  | nil => rfl
  | cons a m ih =>
    obtain ⟨a1, a2⟩ := a
    by_cases ha : a1 = k
    · subst ha
      have hne : (k2 == a1) = false := by simp [h]
      simp [List.filter_cons, List.lookup, hne, ih]
    · by_cases hk2 : k2 = a1
      · subst hk2
        simp [List.filter_cons, ha, List.lookup]
      · have hne : (k2 == a1) = false := by simp [hk2]
        simp [List.filter_cons, ha, List.lookup, hne, ih]

theorem store_lookup_self {α : Type} (m : List (ℕ × α)) (k : ℕ) (v : α) :
    List.lookup k (store m k v) = some v := by
  simp [store, List.lookup]

theorem store_lookup_ne {α : Type} (m : List (ℕ × α)) {k k2 : ℕ} (v : α)
    (h : k2 ≠ k) : List.lookup k2 (store m k v) = List.lookup k2 m := by
  have hne : (k2 == k) = false := by simp [h]
  simp [store, List.lookup, hne]
  exact lookup_filter_ne h m

theorem store_isSome_iff {α : Type} (m : List (ℕ × α)) (k k2 : ℕ) (v : α) :
    (List.lookup k2 (store m k v)).isSome ↔ k2 = k ∨ (List.lookup k2 m).isSome := by
  by_cases h : k2 = k
  · subst h
    simp [store_lookup_self]
  · rw [store_lookup_ne m v h]
    simp [h]

theorem lookup_eq_none_of_all_ne {α : Type} {k : ℕ} :
    ∀ {m : List (ℕ × α)}, List.lookup k m = none → ∀ p ∈ m, p.1 ≠ k := by
  intro m
  induction m with
  | nil => simp
  | cons a m ih =>
    intro hl p hp
    obtain ⟨a1, a2⟩ := a
    by_cases hk : k = a1
    · subst hk
      simp [List.lookup] at hl
    · have hne : (k == a1) = false := by simp [hk]
      simp only [List.lookup, hne] at hl
      rcases List.mem_cons.mp hp with rfl | hmem
      · simp
        omega
      · exact ih hl p hmem

theorem filter_of_lookup_none {α : Type} {k : ℕ} {m : List (ℕ × α)}
    (h : List.lookup k m = none) : m.filter (fun p => p.1 != k) = m := by
  apply List.filter_eq_self.mpr
  intro p hp
  simp
  exact lookup_eq_none_of_all_ne h p hp

theorem leafMS_cons (a : ℕ × Option (List ℕ)) (m : List (ℕ × Option (List ℕ))) :
    leafMS (a :: m) =
      (match a.2 with | some l => (l : Multiset ℕ) | none => 0) + leafMS m := by
  obtain ⟨a1, a2⟩ := a
  cases a2 <;> simp [leafMS]

theorem leafMS_store_fresh {m : List (ℕ × Option (List ℕ))} {k : ℕ}
    (v : Option (List ℕ)) (h : List.lookup k m = none) :
    leafMS (store m k v) =
      (match v with | some l => (l : Multiset ℕ) | none => 0) + leafMS m := by
  rw [store, filter_of_lookup_none h, leafMS_cons]

theorem store_store {α : Type} (m : List (ℕ × α)) (k : ℕ) (v1 v2 : α) :
    store (store m k v1) k v2 = store m k v2 := by
  simp [store, List.filter_cons, List.filter_filter]

theorem store_keys_nodup {α : Type} {m : List (ℕ × α)} (k : ℕ) (v : α)
    (h : (m.map Prod.fst).Nodup) : (((store m k v).map Prod.fst)).Nodup := by
  rw [store]
  simp only [List.map_cons, List.nodup_cons]
  constructor
  · intro hmem
    obtain ⟨p, hp, hp1⟩ := List.mem_map.mp hmem
    have := List.of_mem_filter hp
    simp [hp1] at this
  · exact List.Nodup.sublist (List.Sublist.map Prod.fst (List.filter_sublist m)) h

/-- C2 (counterexample).  In the spec's worked example the first subdivision
does not separate the outlier into its own octant leaf: all five points have
every coordinate `≥ 0`, so they all land in root octant 7 — the root's only
child is location code 15 (`generateLocCode 1 7`), it holds a null points
entry (internal node, not a leaf), and `getClosestBox ((0,0,0), 0)` returns a
box whose stored point list is `[0]` — a single clustered point, not the four
clustered points. -/
theorem example_first_subdivision_counterexample :
    List.lookup (Octree.generateLocCode 1 7) oExample.points = some none ∧
      (List.range 8).filter (fun i => (List.lookup (8 + i) oExample.aabbs).isSome) = [7] ∧
      (oExample.getClosestBox ⟨0, 0, 0⟩ 0).map
          (fun b => (List.lookup b.locCode oExample.points).join) = some (some [0]) := by
  decide

/-- C2 (amended).  The actual behaviour on the spec's worked example
(threshold 2, maxDepth 4, points (0,0,0), (0,0,1), (0,1,0), (1,0,0), (5,5,5),
root box center (0,0,0) radius 8): the first subdivision puts all five points
into root octant 7 (code 15); the second subdivision separates the outlier
into leaf 127 (depth 2, one point) and sends the cluster of four to node 120,
which recurses through 960 to the four singleton depth-4 (= maxDepth) leaves
7680, 7681, 7682, 7684 — every leaf holds at most 2 points; and
`getClosestBox ((0,0,0), 0)` returns the depth-4 leaf box `[0,1]^3` (center
(1/2,1/2,1/2), radius 1/2, code 7680) holding clustered point 0, not the
outlier's leaf. -/
theorem example_build_shape :
    oExample.points.length = 9 ∧
      List.lookup 1 oExample.points = some none ∧
      List.lookup 15 oExample.points = some none ∧
      List.lookup 120 oExample.points = some none ∧
      List.lookup 960 oExample.points = some none ∧
      List.lookup 127 oExample.points = some (some [4]) ∧
      List.lookup 7680 oExample.points = some (some [0]) ∧
      List.lookup 7681 oExample.points = some (some [1]) ∧
      List.lookup 7682 oExample.points = some (some [2]) ∧
      List.lookup 7684 oExample.points = some (some [3]) ∧
      oExample.getClosestBox ⟨0, 0, 0⟩ 0 =
        some { center := ⟨1/2, 1/2, 1/2⟩, radius := 1/2, locCode := 7680 } := by
  decide

/-- C3 (counterexample).  For the one-point build the root is a leaf: the box
map keys are exactly `[1]`, yet `traverse` visits no node at all — the root,
though it has a recorded box, is never passed to the callback, so the visited
code set is not the key set of the box map. -/
theorem traverse_misses_root_counterexample :
    Octree.visitedCodes oLeafRoot = [] ∧ Octree.getLocCodes oLeafRoot = [1] := by
  decide

/-- C6 (counterexample).  After the example build the root key 1 (an internal
node) is present in the points map with a null value: not every present key
holds a non-null list, and an internal node's entry is present-with-null
rather than absent. -/
theorem internal_present_with_null_counterexample :
    List.lookup 1 oExample.points = some none := by
  decide

/-- C4 (code bug).  At the octree `oCenterEx` (two depth-2 leaves: box 120
with center (1,1,1) and box 127 with center (3,3,3)) and query point
`(1, 1, 15/4)` with threshold 0, `getClosestBoxFromCenter` as implemented
returns the box with center (3,3,3): after its first (center-distance)
selection step it recurses into `getClosestBox`, whose surface-distance
measure prefers box 127 (distance 2 against 49/16).  The all-levels
center-distance descent that the spec — and the method's own documentation —
describe returns the box with center (1,1,1) instead (center distance
121/16 against 137/16). -/
theorem getClosestBoxFromCenter_divergence :
    oCenterEx.getClosestBoxFromCenter qCenterEx 0 =
        some { center := ⟨3, 3, 3⟩, radius := 1, locCode := 127 } ∧
      oCenterEx.getClosestBoxFromCenterSpec qCenterEx 0 =
        some { center := ⟨1, 1, 1⟩, radius := 1, locCode := 120 } := by
  decide

/-- C5 (counterexample).  The two-point KNN example with `k = 5`: the claim
demands `min (k+1) totalPoints = min 6 2 = 2` returned indices, but the
function returns the fixed-size zero-padded array `[0, 1, 0, 0, 0, 0]` of
length `k + 1 = 6`. -/
theorem knn_fixed_size_counterexample :
    oKnnEx.kNearestNeighbours 5 0 0 0 (some 1) posKnnEx = [0, 1, 0, 0, 0, 0] ∧
      posKnnEx.length / 3 = 2 ∧
      (oKnnEx.kNearestNeighbours 5 0 0 0 (some 1) posKnnEx).length ≠
        min (5 + 1) (posKnnEx.length / 3) := by
  decide

/-- C7.  `raySearch` always reports every point stored at the root node
(location code 1), tagged with location code 1, whatever the pruning
predicate does — in particular whether or not the root box passes the ray's
cylinder test. -/
theorem raySearch_includes_root_points (o : Octree) (cylTest : AABB → Bool)
    (l : List ℕ) (hroot : List.lookup 1 o.points = some (some l)) :
    ∀ idx ∈ l, (idx, 1) ∈ o.raySearch cylTest := by
  intro idx hidx
  rw [Octree.raySearch, hroot]
  exact List.mem_append_left _ (List.mem_map_of_mem _ hidx)

/-- Witness for C7: the one-point root-leaf octree, with a pruning predicate
that rejects every box. -/
theorem raySearch_includes_root_points_witness :
    List.lookup 1 oLeafRoot.points = some (some [0]) ∧
      (0, 1) ∈ oLeafRoot.raySearch (fun _ => false) :=
  ⟨by decide,
    raySearch_includes_root_points oLeafRoot (fun _ => false) [0] (by decide) 0
      (by decide)⟩

theorem knnInnerLoop_length (sortedArr : List ℚ) (bound : Option ℚ)
    (pick : ℕ → ℕ) (kk : ℕ) :
    ∀ (fuel i : ℕ) (indices : List ℕ) (c off : ℕ),
      (knnInnerLoop sortedArr bound pick kk fuel i indices c off).1.length =
        indices.length := by
  intro fuel
  induction fuel with
  | zero => intro i indices c off; rfl
  | succ fuel ih =>
    intro i indices c off
    rw [knnInnerLoop.eq_def]
    simp only []
    split
    · split
      · rfl
      · rw [ih]
        exact List.length_set ..
    · rfl

theorem knnCellLoop_length (o : Octree) (x y z : ℚ) (positions : List ℚ)
    (cellCodes : List ℕ) (cellSortedVals : List ℚ) (cellSortedIdx : List ℕ)
    (kk : ℕ) (len : ℚ) :
    ∀ (fuel i : ℕ) (pd : List ℕ × List ℚ) (indices : List ℕ) (c off : ℕ),
      (Octree.knnCellLoop o x y z positions cellCodes cellSortedVals
          cellSortedIdx kk len fuel i pd indices c off).length =
        indices.length := by
  intro fuel
  induction fuel with
  | zero => intro i pd indices c off; rfl
  | succ fuel ih =>
    intro i pd indices c off
    rw [Octree.knnCellLoop.eq_def]
    simp only []
    split
    · split
      · rw [knnInnerLoop_length]
      · rw [ih, knnInnerLoop_length]
    · rfl

/-- C5 (amended).  For every octree state, query point, location-code
argument, `k` and coordinate buffer, `kNearestNeighbours` returns exactly
`k + 1` indices: the fixed-size result array allocated after `k += 1`,
zero-padded whenever fewer than `k + 1` candidates are gathered — not
`min (k + 1) totalPoints`. -/
theorem knn_length (o : Octree) (k : ℕ) (x y z : ℚ) (locCode? : Option ℕ)
    (positions : List ℚ) :
    (o.kNearestNeighbours k x y z locCode? positions).length = k + 1 := by
  rw [Octree.kNearestNeighbours.eq_def]
  simp only []
  split
  · rw [knnInnerLoop_length, List.length_replicate]
  · rw [knnCellLoop_length, knnInnerLoop_length, List.length_replicate]

theorem buildAux_fields (v : ℕ → ℚ) :
    ∀ (fuel : ℕ) (o : Octree) (pts : List ℕ) (aabb : AABB) (lc : ℕ),
      (Octree.buildAux v fuel o pts aabb lc).threshold = o.threshold ∧
        (Octree.buildAux v fuel o pts aabb lc).maxDepth = o.maxDepth := by
  intro fuel
  induction fuel with
  | zero => intro o pts aabb lc; exact ⟨rfl, rfl⟩
  | succ fuel ih =>
    intro o pts aabb lc
    rw [Octree.buildAux.eq_def]
    simp only []
    split
    · exact ⟨rfl, rfl⟩
    · have hfold : ∀ (l : List ℕ) (oacc : Octree),
          (Octree.childFold (fun o2 p bb c => Octree.buildAux v fuel o2 p bb c)
              v pts { aabb with locCode := lc } lc l oacc).threshold = oacc.threshold ∧
          (Octree.childFold (fun o2 p bb c => Octree.buildAux v fuel o2 p bb c)
              v pts { aabb with locCode := lc } lc l oacc).maxDepth = oacc.maxDepth := by
        intro l
        induction l with
        | nil => intro oacc; exact ⟨rfl, rfl⟩
        | cons i rest ihl =>
          intro oacc
          rw [Octree.childFold]
          simp only []
          split
          · exact ihl oacc
          · rw [(ihl _).1, (ihl _).2]
            exact ih ..
      rw [(hfold _ _).1, (hfold _ _).2]
      exact ⟨rfl, rfl⟩

theorem buildAux_frame (v : ℕ → ℚ) :
    ∀ (fuel : ℕ) (o : Octree) (pts : List ℕ) (aabb : AABB) (lc : ℕ), 1 ≤ lc →
      ∀ k, ¬ Octree.desc lc k →
        List.lookup k (Octree.buildAux v fuel o pts aabb lc).points =
            List.lookup k o.points ∧
          List.lookup k (Octree.buildAux v fuel o pts aabb lc).aabbs =
            List.lookup k o.aabbs := by
  intro fuel
  induction fuel with
  | zero => intro o pts aabb lc hlc k hk; exact ⟨rfl, rfl⟩
  | succ fuel ih =>
    intro o pts aabb lc hlc k hk
    have hkne : k ≠ lc := fun h => hk (h ▸ desc_refl lc)
    rw [Octree.buildAux.eq_def]
    simp only []
    split
    · exact ⟨by rw [store_lookup_ne _ _ hkne, store_lookup_ne _ _ hkne],
        by rw [store_lookup_ne _ _ hkne]⟩
    · have hfold : ∀ (l : List ℕ), (∀ i ∈ l, i < 8) → ∀ oacc : Octree,
          List.lookup k (Octree.childFold
              (fun o2 p bb c => Octree.buildAux v fuel o2 p bb c)
              v pts { aabb with locCode := lc } lc l oacc).points =
            List.lookup k oacc.points ∧
          List.lookup k (Octree.childFold
              (fun o2 p bb c => Octree.buildAux v fuel o2 p bb c)
              v pts { aabb with locCode := lc } lc l oacc).aabbs =
            List.lookup k oacc.aabbs := by
        intro l
        induction l with
        | nil => intro _ oacc; exact ⟨rfl, rfl⟩
        | cons i rest ihl =>
          intro hmem oacc
          have hi : i < 8 := hmem i (List.mem_cons_self i rest)
          rw [Octree.childFold]
          simp only []
          have hrest : ∀ j ∈ rest, j < 8 := fun j hj => hmem j (List.mem_cons_of_mem i hj)
          split
          · exact ihl hrest oacc
          · have hknd : ¬ Octree.desc (Octree.generateLocCode lc i) k := by
              rw [genLocCode_eq hlc hi]
              intro hd
              exact hk (desc_child_region hi hd)
            have hstep := ih oacc (pts.filter
                (fun idx => Octree.pointOctant v { aabb with locCode := lc }.center idx == i))
              (Octree.childAABB { aabb with locCode := lc } i)
              (Octree.generateLocCode lc i) (by rw [genLocCode_eq hlc hi]; omega) k hknd
            rw [(ihl hrest _).1, (ihl hrest _).2, hstep.1, hstep.2]
            exact ⟨rfl, rfl⟩
      have h1 := hfold (List.range 8) (by intro i hi; simpa using hi)
        { o with points := store o.points lc none,
                 aabbs := store o.aabbs lc { aabb with locCode := lc } }
      rw [h1.1, h1.2]
      exact ⟨by rw [store_lookup_ne _ _ hkne], by rw [store_lookup_ne _ _ hkne]⟩

theorem buildAux_grow (v : ℕ → ℚ) :
    ∀ (fuel : ℕ) (o : Octree) (pts : List ℕ) (aabb : AABB) (lc k : ℕ),
      ((List.lookup k o.points).isSome →
        (List.lookup k (Octree.buildAux v fuel o pts aabb lc).points).isSome) ∧
      ((List.lookup k o.aabbs).isSome →
        (List.lookup k (Octree.buildAux v fuel o pts aabb lc).aabbs).isSome) := by
  intro fuel
  induction fuel with
  | zero => intro o pts aabb lc k; exact ⟨id, id⟩
  | succ fuel ih =>
    intro o pts aabb lc k
    rw [Octree.buildAux.eq_def]
    simp only []
    split
    · constructor
      · intro h
        rw [store_isSome_iff, store_isSome_iff]
        by_cases hkl : k = lc
        · exact Or.inl hkl
        · exact Or.inr (Or.inr h)
      · intro h
        rw [store_isSome_iff]
        exact Or.inr h
    · have hfold : ∀ (l : List ℕ) (oacc : Octree),
          ((List.lookup k oacc.points).isSome →
            (List.lookup k (Octree.childFold
                (fun o2 p bb c => Octree.buildAux v fuel o2 p bb c)
                v pts { aabb with locCode := lc } lc l oacc).points).isSome) ∧
          ((List.lookup k oacc.aabbs).isSome →
            (List.lookup k (Octree.childFold
                (fun o2 p bb c => Octree.buildAux v fuel o2 p bb c)
                v pts { aabb with locCode := lc } lc l oacc).aabbs).isSome) := by
        intro l
        induction l with
        | nil => intro oacc; exact ⟨id, id⟩
        | cons i rest ihl =>
          intro oacc
          rw [Octree.childFold]
          simp only []
          split
          · exact ihl oacc
          · exact ⟨fun h => (ihl _).1 ((ih ..).1 h), fun h => (ihl _).2 ((ih ..).2 h)⟩
      refine ⟨fun h => (hfold _ _).1 ?_, fun h => (hfold _ _).2 ?_⟩
      · rw [store_isSome_iff]
        exact Or.inr h
      · rw [store_isSome_iff]
        exact Or.inr h

theorem buildAux_keys (v : ℕ → ℚ) :
    ∀ (fuel : ℕ) (o : Octree) (pts : List ℕ) (aabb : AABB) (lc dd : ℕ),
      8 ^ dd ≤ lc → lc < 2 * 8 ^ dd → dd ≤ o.maxDepth →
      o.maxDepth + 1 ≤ fuel + dd →
      (∀ k, Octree.desc lc k →
        List.lookup k o.points = none ∧ List.lookup k o.aabbs = none) →
      (∀ k, (List.lookup k o.points).isSome ↔ (List.lookup k o.aabbs).isSome) →
      ∀ k,
        ((List.lookup k (Octree.buildAux v fuel o pts aabb lc).points).isSome ↔
          (List.lookup k (Octree.buildAux v fuel o pts aabb lc).aabbs).isSome) ∧
        ((List.lookup k (Octree.buildAux v fuel o pts aabb lc).points).isSome →
          (List.lookup k o.points).isSome ∨
            ∃ n, dd + n ≤ o.maxDepth ∧ lc * 8 ^ n ≤ k ∧ k < (lc + 1) * 8 ^ n) := by
  intro fuel
  induction fuel with
  | zero =>
    intro o pts aabb lc dd hW1 hW2 hdd hfuel hfresh hkeq
    omega
  | succ fuel ih =>
    intro o pts aabb lc dd hW1 hW2 hdd hfuel hfresh hkeq
    have hlc : 1 ≤ lc := le_trans (Nat.one_le_pow dd 8 (by norm_num)) hW1
    have hdepth : Octree.getDepth lc = (dd : ℚ) := getDepth_of_interval hW1 hW2
    rw [Octree.buildAux.eq_def]
    simp only []
    split
    · -- terminal: leaf stored at lc
      intro k
      rw [store_store]
      constructor
      · rw [store_isSome_iff, store_isSome_iff]
        constructor
        · rintro (rfl | h)
          · exact Or.inl rfl
          · exact Or.inr ((hkeq k).mp h)
        · rintro (rfl | h)
          · exact Or.inl rfl
          · exact Or.inr ((hkeq k).mpr h)
      · intro hs
        rw [store_isSome_iff] at hs
        rcases hs with rfl | h
        · exact Or.inr ⟨0, by omega, by simp, by simp⟩
        · exact Or.inl h
    · -- subdivision
      rename_i hterm
      have hddlt : dd < o.maxDepth := by
        push_neg at hterm
        have h2 := hterm.2
        rw [hdepth] at h2
        exact_mod_cast h2
      have hfold : ∀ (l : List ℕ), (∀ i ∈ l, i < 8) → l.Nodup →
          ∀ oacc : Octree, oacc.maxDepth = o.maxDepth →
          (∀ j ∈ l, ∀ k, Octree.desc (8 * lc + j) k →
            List.lookup k oacc.points = none ∧ List.lookup k oacc.aabbs = none) →
          (∀ k, (List.lookup k oacc.points).isSome ↔ (List.lookup k oacc.aabbs).isSome) →
          ∀ k,
            ((List.lookup k (Octree.childFold
                (fun o2 p bb c => Octree.buildAux v fuel o2 p bb c)
                v pts { aabb with locCode := lc } lc l oacc).points).isSome ↔
              (List.lookup k (Octree.childFold
                (fun o2 p bb c => Octree.buildAux v fuel o2 p bb c)
                v pts { aabb with locCode := lc } lc l oacc).aabbs).isSome) ∧
            ((List.lookup k (Octree.childFold
                (fun o2 p bb c => Octree.buildAux v fuel o2 p bb c)
                v pts { aabb with locCode := lc } lc l oacc).points).isSome →
              (List.lookup k oacc.points).isSome ∨
                ∃ j ∈ l, ∃ n, dd + 1 + n ≤ o.maxDepth ∧
                  (8 * lc + j) * 8 ^ n ≤ k ∧ k < (8 * lc + j + 1) * 8 ^ n) := by
        intro l
        induction l with
        | nil =>
          intro _ _ oacc _ _ hkeqa k
          exact ⟨hkeqa k, fun h => Or.inl h⟩
        | cons i rest ihl =>
          intro hmem hnd oacc hmaxd hfree hkeqa k
          have hi : i < 8 := hmem i (List.mem_cons_self i rest)
          have hrest : ∀ j ∈ rest, j < 8 := fun j hj => hmem j (List.mem_cons_of_mem i hj)
          have hndr : rest.Nodup := (List.nodup_cons.mp hnd).2
          have hinr : i ∉ rest := (List.nodup_cons.mp hnd).1
          rw [Octree.childFold]
          simp only []
          split
          · have hsub := ihl hrest hndr oacc hmaxd
              (fun j hj => hfree j (List.mem_cons_of_mem i hj)) hkeqa k
            refine ⟨hsub.1, fun h => ?_⟩
            rcases hsub.2 h with h | ⟨j, hj, hrestj⟩
            · exact Or.inl h
            · exact Or.inr ⟨j, List.mem_cons_of_mem i hj, hrestj⟩
          · have hgen : Octree.generateLocCode lc i = 8 * lc + i := genLocCode_eq hlc hi
            rw [hgen]
            have hP : (0:ℕ) < 8 ^ dd := Nat.pos_pow_of_pos dd (by norm_num)
            have hcW1 : 8 ^ (dd + 1) ≤ 8 * lc + i := by
              rw [pow_succ]
              omega
            have hcW2 : 8 * lc + i < 2 * 8 ^ (dd + 1) := by
              rw [pow_succ]
              omega
            have hstep := ih oacc
              (pts.filter (fun idx =>
                Octree.pointOctant v ({ aabb with locCode := lc } : AABB).center idx == i))
              (Octree.childAABB { aabb with locCode := lc } i) (8 * lc + i) (dd + 1)
              hcW1 hcW2 (by omega) (by omega)
              (fun k2 hk2 => hfree i (List.mem_cons_self i rest) k2 hk2) hkeqa
            set o2 := Octree.buildAux v fuel oacc
              (pts.filter (fun idx =>
                Octree.pointOctant v ({ aabb with locCode := lc } : AABB).center idx == i))
              (Octree.childAABB { aabb with locCode := lc } i) (8 * lc + i) with ho2
            have ho2f := buildAux_fields v fuel oacc
              (pts.filter (fun idx =>
                Octree.pointOctant v ({ aabb with locCode := lc } : AABB).center idx == i))
              (Octree.childAABB { aabb with locCode := lc } i) (8 * lc + i)
            have hfree2 : ∀ j ∈ rest, ∀ k2, Octree.desc (8 * lc + j) k2 →
                List.lookup k2 o2.points = none ∧ List.lookup k2 o2.aabbs = none := by
              intro j hj k2 hk2
              have hij : i ≠ j := fun h => hinr (h ▸ hj)
              have hnotd : ¬ Octree.desc (8 * lc + i) k2 := fun hd =>
                desc_child_disjoint hlc hi (hrest j hj) hij hd hk2
              have hnp : List.lookup k2 o2.points = none := by
                by_contra hne
                have hs : (List.lookup k2 o2.points).isSome :=
                  Option.ne_none_iff_isSome.mp hne
                rcases (hstep k2).2 hs with h | ⟨n, hn, hb1, hb2⟩
                · have := (hfree j (List.mem_cons_of_mem i hj) k2 hk2).1
                  rw [this] at h
                  simp at h
                · exact hnotd ⟨n, hb1, hb2⟩
              refine ⟨hnp, ?_⟩
              by_contra hne
              have hs : (List.lookup k2 o2.aabbs).isSome :=
                Option.ne_none_iff_isSome.mp hne
              have hs2 : (List.lookup k2 o2.points).isSome := (hstep k2).1.mpr hs
              rw [hnp] at hs2
              simp at hs2
            have hsub := ihl hrest hndr o2 (by rw [ho2f.2, hmaxd])
              hfree2 (fun k2 => (hstep k2).1) k
            refine ⟨hsub.1, fun h => ?_⟩
            rcases hsub.2 h with h2 | ⟨j, hj, hn, hdd2, hb1, hb2⟩
            · rcases (hstep k).2 h2 with h3 | ⟨n, hn, hb1, hb2⟩
              · exact Or.inl h3
              · exact Or.inr ⟨i, List.mem_cons_self i rest, n, by omega, hb1, hb2⟩
            · exact Or.inr ⟨j, List.mem_cons_of_mem i hj, hn, hdd2, hb1, hb2⟩
      -- apply the fold at the full octant list and the stored state
      have hfree1 : ∀ j ∈ List.range 8, ∀ k2, Octree.desc (8 * lc + j) k2 →
          List.lookup k2 (store o.points lc none) = none ∧
          List.lookup k2 (store o.aabbs lc { aabb with locCode := lc }) = none := by
        intro j hj k2 hk2
        have hj8 : j < 8 := by simpa using hj
        have hkne : k2 ≠ lc := desc_child_ne hlc hk2
        have hdesc : Octree.desc lc k2 := desc_child_region hj8 hk2
        rw [store_lookup_ne _ _ hkne, store_lookup_ne _ _ hkne]
        exact hfresh k2 hdesc
      have hkeq1 : ∀ k2, (List.lookup k2 (store o.points lc none)).isSome ↔
          (List.lookup k2 (store o.aabbs lc { aabb with locCode := lc })).isSome := by
        intro k2
        rw [store_isSome_iff, store_isSome_iff]
        constructor
        · rintro (rfl | h)
          · exact Or.inl rfl
          · exact Or.inr ((hkeq k2).mp h)
        · rintro (rfl | h)
          · exact Or.inl rfl
          · exact Or.inr ((hkeq k2).mpr h)
      intro k
      have hmain := hfold (List.range 8) (by intro i hi; simpa using hi)
        (List.nodup_range 8)
        { o with points := store o.points lc none,
                 aabbs := store o.aabbs lc { aabb with locCode := lc } }
        rfl hfree1 hkeq1 k
      refine ⟨hmain.1, fun h => ?_⟩
      rcases hmain.2 h with h2 | ⟨j, hj, n, hdd2, hb1, hb2⟩
      · have : (List.lookup k (store o.points lc none)).isSome := h2
        rw [store_isSome_iff] at this
        rcases this with rfl | h3
        · exact Or.inr ⟨0, by omega, by simp, by simp⟩
        · exact Or.inl h3
      · have hj8 : j < 8 := by simpa using hj
        refine Or.inr ⟨n + 1, by omega, ?_, ?_⟩
        · calc lc * 8 ^ (n + 1) = (8 * lc) * 8 ^ n := by ring
          _ ≤ (8 * lc + j) * 8 ^ n := Nat.mul_le_mul_right _ (by omega)
          _ ≤ k := hb1
        · calc k < (8 * lc + j + 1) * 8 ^ n := hb2
          _ ≤ (8 * (lc + 1)) * 8 ^ n := Nat.mul_le_mul_right _ (by omega)
          _ = (lc + 1) * 8 ^ (n + 1) := by ring

theorem pointOctant_lt (v : ℕ → ℚ) (c : Vector3f) (idx : ℕ) :
    Octree.pointOctant v c idx < 8 := by
  simp only [Octree.pointOctant]
  split <;> split <;> split <;> decide

theorem sum_map_range_ite (x : ℕ) (g : ℕ → Multiset ℕ) :
    ∀ n j : ℕ, j < n →
      ((List.range n).map (fun i => if j = i then x ::ₘ g i else g i)).sum =
        x ::ₘ ((List.range n).map g).sum := by
  intro n
  induction n with
  | zero => intro j hj; omega
  | succ n ihn =>
    intro j hj
    rw [List.range_succ, List.map_append, List.map_append, List.sum_append,
      List.sum_append]
    by_cases hjn : j = n
    · have hfront : (List.range n).map (fun i => if j = i then x ::ₘ g i else g i) =
          (List.range n).map g := by
        apply List.map_congr_left
        intro i hi
        have hilt : i < n := List.mem_range.mp hi
        rw [if_neg (by omega)]
      rw [hfront]
      simp only [List.map_cons, List.map_nil, List.sum_cons, List.sum_nil,
        if_pos hjn]
      simp [Multiset.add_cons]
    · have hjlt : j < n := by omega
      rw [ihn j hjlt]
      simp only [List.map_cons, List.map_nil, List.sum_cons, List.sum_nil,
        if_neg hjn]
      simp [Multiset.cons_add]

theorem filter_octant_sum (f : ℕ → ℕ) :
    ∀ l : List ℕ, (∀ x ∈ l, f x < 8) →
      ((List.range 8).map
          (fun i => ((l.filter (fun x => f x == i) : List ℕ) : Multiset ℕ))).sum =
        (l : Multiset ℕ) := by
  intro l
  induction l with
  | nil => intro _; simp
  | cons x l ihl =>
    intro hmem
    have hx : f x < 8 := hmem x (List.mem_cons_self x l)
    have hstep : ((List.range 8).map
        (fun i => (((x :: l).filter (fun y => f y == i) : List ℕ) : Multiset ℕ))) =
        (List.range 8).map (fun i => if f x = i
          then x ::ₘ ((l.filter (fun y => f y == i) : List ℕ) : Multiset ℕ)
          else ((l.filter (fun y => f y == i) : List ℕ) : Multiset ℕ)) := by
      apply List.map_congr_left
      intro i _
      by_cases hfx : f x = i
      · rw [if_pos hfx, List.filter_cons, if_pos (by simpa using hfx)]
        rfl
      · rw [if_neg hfx, List.filter_cons, if_neg (by simpa using hfx)]
    rw [hstep, sum_map_range_ite x _ 8 (f x) hx,
      ihl (fun y hy => hmem y (List.mem_cons_of_mem x hy))]
    rfl

theorem buildAux_mset (v : ℕ → ℚ) :
    ∀ (fuel : ℕ) (o : Octree) (pts : List ℕ) (aabb : AABB) (lc dd : ℕ),
      8 ^ dd ≤ lc → lc < 2 * 8 ^ dd → dd ≤ o.maxDepth →
      o.maxDepth + 1 ≤ fuel + dd →
      (∀ k, Octree.desc lc k →
        List.lookup k o.points = none ∧ List.lookup k o.aabbs = none) →
      (∀ k, (List.lookup k o.points).isSome ↔ (List.lookup k o.aabbs).isSome) →
      leafMS (Octree.buildAux v fuel o pts aabb lc).points =
        (pts : Multiset ℕ) + leafMS o.points := by
  intro fuel
  induction fuel with
  | zero =>
    intro o pts aabb lc dd hW1 hW2 hdd hfuel hfresh hkeq
    omega
  | succ fuel ih =>
    intro o pts aabb lc dd hW1 hW2 hdd hfuel hfresh hkeq
    have hlc : 1 ≤ lc := le_trans (Nat.one_le_pow dd 8 (by norm_num)) hW1
    have hdepth : Octree.getDepth lc = (dd : ℚ) := getDepth_of_interval hW1 hW2
    have hself := hfresh lc (desc_refl lc)
    rw [Octree.buildAux.eq_def]
    simp only []
    split
    · show leafMS (store (store o.points lc none) lc (some pts)) = _
      rw [store_store, leafMS_store_fresh (some pts) hself.1]
    · rename_i hterm
      have hddlt : dd < o.maxDepth := by
        push_neg at hterm
        have h2 := hterm.2
        rw [hdepth] at h2
        exact_mod_cast h2
      have hfold : ∀ (l : List ℕ), (∀ i ∈ l, i < 8) → l.Nodup →
          ∀ oacc : Octree, oacc.maxDepth = o.maxDepth →
          (∀ j ∈ l, ∀ k, Octree.desc (8 * lc + j) k →
            List.lookup k oacc.points = none ∧ List.lookup k oacc.aabbs = none) →
          (∀ k, (List.lookup k oacc.points).isSome ↔
            (List.lookup k oacc.aabbs).isSome) →
          leafMS (Octree.childFold
              (fun o2 p bb c => Octree.buildAux v fuel o2 p bb c)
              v pts { aabb with locCode := lc } lc l oacc).points =
            (l.map (fun i => ((pts.filter (fun idx =>
                Octree.pointOctant v ({ aabb with locCode := lc } : AABB).center idx
                  == i) : List ℕ) : Multiset ℕ))).sum + leafMS oacc.points := by
        intro l
        induction l with
        | nil =>
          intro _ _ oacc _ _ _
          simp [Octree.childFold]
        | cons i rest ihl =>
          intro hmem hnd oacc hmaxd hfree hkeqa
          have hi : i < 8 := hmem i (List.mem_cons_self i rest)
          have hrest : ∀ j ∈ rest, j < 8 := fun j hj => hmem j (List.mem_cons_of_mem i hj)
          have hndr : rest.Nodup := (List.nodup_cons.mp hnd).2
          have hinr : i ∉ rest := (List.nodup_cons.mp hnd).1
          rw [Octree.childFold]
          simp only []
          split
          · rename_i hempty
            have hnil : pts.filter (fun idx =>
                Octree.pointOctant v ({ aabb with locCode := lc } : AABB).center idx
                  == i) = [] := by
              rwa [← List.isEmpty_iff]
            rw [ihl hrest hndr oacc hmaxd
              (fun j hj => hfree j (List.mem_cons_of_mem i hj)) hkeqa]
            rw [List.map_cons, List.sum_cons, hnil]
            simp
          · have hgen : Octree.generateLocCode lc i = 8 * lc + i := genLocCode_eq hlc hi
            rw [hgen]
            have hP : (0 : ℕ) < 8 ^ dd := Nat.pos_pow_of_pos dd (by norm_num)
            have hcW1 : 8 ^ (dd + 1) ≤ 8 * lc + i := by
              rw [pow_succ]
              omega
            have hcW2 : 8 * lc + i < 2 * 8 ^ (dd + 1) := by
              rw [pow_succ]
              omega
            have hchildfresh := fun k2 hk2 => hfree i (List.mem_cons_self i rest) k2 hk2
            have hstep := ih oacc
              (pts.filter (fun idx =>
                Octree.pointOctant v ({ aabb with locCode := lc } : AABB).center idx == i))
              (Octree.childAABB { aabb with locCode := lc } i) (8 * lc + i) (dd + 1)
              hcW1 hcW2 (by omega) (by omega) hchildfresh hkeqa
            have hkeys := buildAux_keys v fuel oacc
              (pts.filter (fun idx =>
                Octree.pointOctant v ({ aabb with locCode := lc } : AABB).center idx == i))
              (Octree.childAABB { aabb with locCode := lc } i) (8 * lc + i) (dd + 1)
              hcW1 hcW2 (by omega) (by omega) hchildfresh hkeqa
            set o2 := Octree.buildAux v fuel oacc
              (pts.filter (fun idx =>
                Octree.pointOctant v ({ aabb with locCode := lc } : AABB).center idx == i))
              (Octree.childAABB { aabb with locCode := lc } i) (8 * lc + i) with ho2
            have ho2f := buildAux_fields v fuel oacc
              (pts.filter (fun idx =>
                Octree.pointOctant v ({ aabb with locCode := lc } : AABB).center idx == i))
              (Octree.childAABB { aabb with locCode := lc } i) (8 * lc + i)
            have hfree2 : ∀ j ∈ rest, ∀ k2, Octree.desc (8 * lc + j) k2 →
                List.lookup k2 o2.points = none ∧ List.lookup k2 o2.aabbs = none := by
              intro j hj k2 hk2
              have hij : i ≠ j := fun h => hinr (h ▸ hj)
              have hnotd : ¬ Octree.desc (8 * lc + i) k2 := fun hd =>
                desc_child_disjoint hlc hi (hrest j hj) hij hd hk2
              have hnp : List.lookup k2 o2.points = none := by
                by_contra hne
                have hs : (List.lookup k2 o2.points).isSome :=
                  Option.ne_none_iff_isSome.mp hne
                rcases (hkeys k2).2 hs with h | ⟨n, hn, hb1, hb2⟩
                · have hnone := (hfree j (List.mem_cons_of_mem i hj) k2 hk2).1
                  rw [hnone] at h
                  simp at h
                · exact hnotd ⟨n, hb1, hb2⟩
              refine ⟨hnp, ?_⟩
              by_contra hne
              have hs : (List.lookup k2 o2.aabbs).isSome :=
                Option.ne_none_iff_isSome.mp hne
              have hs2 : (List.lookup k2 o2.points).isSome := (hkeys k2).1.mpr hs
              rw [hnp] at hs2
              simp at hs2
            rw [ihl hrest hndr o2 (by rw [ho2f.2, hmaxd]) hfree2
              (fun k2 => (hkeys k2).1)]
            rw [hstep, List.map_cons, List.sum_cons]
            abel
      rw [hfold (List.range 8) (by intro i hi; simpa using hi) (List.nodup_range 8)
        { o with points := store o.points lc none,
                 aabbs := store o.aabbs lc { aabb with locCode := lc } }
        rfl ?hfree1 ?hkeq1]
      case hfree1 =>
        intro j hj k2 hk2
        have hj8 : j < 8 := by simpa using hj
        have hkne : k2 ≠ lc := desc_child_ne hlc hk2
        have hdesc : Octree.desc lc k2 := desc_child_region hj8 hk2
        constructor
        · show List.lookup k2 (store o.points lc none) = none
          rw [store_lookup_ne _ _ hkne]
          exact (hfresh k2 hdesc).1
        · show List.lookup k2 (store o.aabbs lc { aabb with locCode := lc }) = none
          rw [store_lookup_ne _ _ hkne]
          exact (hfresh k2 hdesc).2
      case hkeq1 =>
        intro k2
        show (List.lookup k2 (store o.points lc none)).isSome ↔
          (List.lookup k2 (store o.aabbs lc { aabb with locCode := lc })).isSome
        rw [store_isSome_iff, store_isSome_iff]
        constructor
        · rintro (rfl | h)
          · exact Or.inl rfl
          · exact Or.inr ((hkeq k2).mp h)
        · rintro (rfl | h)
          · exact Or.inl rfl
          · exact Or.inr ((hkeq k2).mpr h)
      show _ = (pts : Multiset ℕ) + leafMS o.points
      rw [filter_octant_sum _ pts
        (fun x _ => pointOctant_lt v ({ aabb with locCode := lc } : AABB).center x)]
      have : leafMS (store o.points lc none) = leafMS o.points := by
        rw [leafMS_store_fresh none hself.1]
        simp
      rw [this]

/-- C1.  For every build over a fresh octree, the multiset union of the
point-index lists stored at all leaf nodes (keys of the points map holding a
non-null list) is exactly the input index list: every input index lands in
exactly one leaf list and nothing else appears. -/
theorem build_leaf_partition (t d : ℕ) (pts : List ℕ) (v : ℕ → ℚ) (b : AABB) :
    leafMS ((Octree.make t d).build pts v b).points = (pts : Multiset ℕ) := by
  rw [Octree.build]
  rw [buildAux_mset v ((Octree.make t d).maxDepth + 1) (Octree.make t d) pts b 1 0
    (by norm_num) (by norm_num) (Nat.zero_le _) (by omega)
    (fun k _ => ⟨rfl, rfl⟩) (fun k => Iff.rfl)]
  show (pts : Multiset ℕ) + leafMS [] = _
  simp [leafMS]

theorem childFold_frame (v : ℕ → ℚ) (fuel : ℕ) (pts : List ℕ) (aabb : AABB)
    (lc : ℕ) (hlc : 1 ≤ lc) :
    ∀ (l : List ℕ), (∀ i ∈ l, i < 8) → ∀ (oacc : Octree) (k : ℕ),
      (∀ i ∈ l, ¬ Octree.desc (8 * lc + i) k) →
      List.lookup k (Octree.childFold
          (fun o2 p bb c => Octree.buildAux v fuel o2 p bb c)
          v pts aabb lc l oacc).points = List.lookup k oacc.points ∧
      List.lookup k (Octree.childFold
          (fun o2 p bb c => Octree.buildAux v fuel o2 p bb c)
          v pts aabb lc l oacc).aabbs = List.lookup k oacc.aabbs := by
  intro l
  induction l with
  | nil => intro _ oacc k _; exact ⟨rfl, rfl⟩
  | cons i rest ihl =>
    intro hmem oacc k hk
    have hi : i < 8 := hmem i (List.mem_cons_self i rest)
    have hrest : ∀ j ∈ rest, j < 8 := fun j hj => hmem j (List.mem_cons_of_mem i hj)
    rw [Octree.childFold]
    try simp only []
    split
    · exact ihl hrest oacc k (fun j hj => hk j (List.mem_cons_of_mem i hj))
    · have hgen : Octree.generateLocCode lc i = 8 * lc + i := genLocCode_eq hlc hi
      rw [hgen]
      have hstep := buildAux_frame v fuel oacc
        (pts.filter (fun idx => Octree.pointOctant v aabb.center idx == i))
        (Octree.childAABB aabb i) (8 * lc + i) (by omega) k
        (hk i (List.mem_cons_self i rest))
      have hrec := ihl hrest (Octree.buildAux v fuel oacc
          (pts.filter (fun idx => Octree.pointOctant v aabb.center idx == i))
          (Octree.childAABB aabb i) (8 * lc + i)) k
        (fun j hj => hk j (List.mem_cons_of_mem i hj))
      rw [hrec.1, hrec.2, hstep.1, hstep.2]
      exact ⟨rfl, rfl⟩

theorem buildAux_self_aabb (v : ℕ → ℚ) (fuel : ℕ) (o : Octree) (pts : List ℕ)
    (aabb : AABB) (lc : ℕ) (hlc : 1 ≤ lc) (hfuel : 1 ≤ fuel) :
    (List.lookup lc (Octree.buildAux v fuel o pts aabb lc).aabbs).isSome := by
  cases fuel with
  | zero => omega
  | succ fuel =>
    rw [Octree.buildAux.eq_def]
    try simp only []
    split
    · rw [store_lookup_self]
      rfl
    · have hframe := childFold_frame v fuel pts { aabb with locCode := lc } lc hlc
        (List.range 8) (by intro i hi; simpa using hi)
        { o with points := store o.points lc none,
                 aabbs := store o.aabbs lc { aabb with locCode := lc } }
        lc (fun i hi hd => desc_child_ne hlc hd rfl)
      rw [hframe.2]
      show (List.lookup lc (store o.aabbs lc { aabb with locCode := lc })).isSome
      rw [store_lookup_self]
      rfl

theorem buildAux_self_points (v : ℕ → ℚ) (fuel : ℕ) (o : Octree) (pts : List ℕ)
    (aabb : AABB) (lc : ℕ) (hlc : 1 ≤ lc) (hfuel : 1 ≤ fuel) :
    (pts.length ≤ o.threshold ∨ (o.maxDepth : ℚ) ≤ Octree.getDepth lc →
      List.lookup lc (Octree.buildAux v fuel o pts aabb lc).points =
        some (some pts)) ∧
    (¬ (pts.length ≤ o.threshold ∨ (o.maxDepth : ℚ) ≤ Octree.getDepth lc) →
      List.lookup lc (Octree.buildAux v fuel o pts aabb lc).points = some none) := by
  cases fuel with
  | zero => omega
  | succ fuel =>
    rw [Octree.buildAux.eq_def]
    try simp only []
    split
    · rename_i hterm
      constructor
      · intro _
        rw [store_store]
        exact store_lookup_self ..
      · intro hn
        exact absurd hterm hn
    · rename_i hterm
      constructor
      · intro hy
        exact absurd hy hterm
      · intro _
        have hframe := childFold_frame v fuel pts { aabb with locCode := lc } lc hlc
          (List.range 8) (by intro i hi; simpa using hi)
          { o with points := store o.points lc none,
                   aabbs := store o.aabbs lc { aabb with locCode := lc } }
          lc (fun i hi hd => desc_child_ne hlc hd rfl)
        rw [hframe.1]
        exact store_lookup_self ..

theorem childFold_grow (v : ℕ → ℚ) (fuel : ℕ) (pts : List ℕ) (aabb : AABB)
    (lc : ℕ) :
    ∀ (l : List ℕ) (oacc : Octree) (k : ℕ),
      ((List.lookup k oacc.points).isSome →
        (List.lookup k (Octree.childFold
            (fun o2 p bb c => Octree.buildAux v fuel o2 p bb c)
            v pts aabb lc l oacc).points).isSome) ∧
      ((List.lookup k oacc.aabbs).isSome →
        (List.lookup k (Octree.childFold
            (fun o2 p bb c => Octree.buildAux v fuel o2 p bb c)
            v pts aabb lc l oacc).aabbs).isSome) := by
  intro l
  induction l with
  | nil => intro oacc k; exact ⟨id, id⟩
  | cons i rest ihl =>
    intro oacc k
    rw [Octree.childFold]
    try simp only []
    split
    · exact ihl oacc k
    · exact ⟨fun h => (ihl _ k).1 ((buildAux_grow v fuel ..).1 h),
        fun h => (ihl _ k).2 ((buildAux_grow v fuel ..).2 h)⟩

theorem buildAux_parent (v : ℕ → ℚ) :
    ∀ (fuel : ℕ) (o : Octree) (pts : List ℕ) (aabb : AABB) (lc dd : ℕ),
      8 ^ dd ≤ lc → lc < 2 * 8 ^ dd → dd ≤ o.maxDepth →
      o.maxDepth + 1 ≤ fuel + dd →
      (∀ k, Octree.desc lc k →
        List.lookup k o.points = none ∧ List.lookup k o.aabbs = none) →
      (∀ k, (List.lookup k o.points).isSome ↔ (List.lookup k o.aabbs).isSome) →
      ∀ k, (List.lookup k (Octree.buildAux v fuel o pts aabb lc).points).isSome →
        (List.lookup k o.points).isSome ∨ k = lc ∨
          (List.lookup (k / 8)
            (Octree.buildAux v fuel o pts aabb lc).points).isSome := by
  intro fuel
  induction fuel with
  | zero =>
    intro o pts aabb lc dd hW1 hW2 hdd hfuel hfresh hkeq
    omega
  | succ fuel ih =>
    intro o pts aabb lc dd hW1 hW2 hdd hfuel hfresh hkeq
    have hlc : 1 ≤ lc := le_trans (Nat.one_le_pow dd 8 (by norm_num)) hW1
    have hdepth : Octree.getDepth lc = (dd : ℚ) := getDepth_of_interval hW1 hW2
    rw [Octree.buildAux.eq_def]
    simp only []
    split
    · intro k hs
      rw [store_store] at hs
      rw [store_isSome_iff] at hs
      rcases hs with rfl | h
      · exact Or.inr (Or.inl rfl)
      · exact Or.inl h
    · rename_i hterm
      have hddlt : dd < o.maxDepth := by
        push_neg at hterm
        have h2 := hterm.2
        rw [hdepth] at h2
        exact_mod_cast h2
      have hfold : ∀ (l : List ℕ), (∀ i ∈ l, i < 8) → l.Nodup →
          ∀ oacc : Octree, oacc.maxDepth = o.maxDepth →
          (∀ j ∈ l, ∀ k, Octree.desc (8 * lc + j) k →
            List.lookup k oacc.points = none ∧ List.lookup k oacc.aabbs = none) →
          (∀ k, (List.lookup k oacc.points).isSome ↔
            (List.lookup k oacc.aabbs).isSome) →
          ∀ k, (List.lookup k (Octree.childFold
              (fun o2 p bb c => Octree.buildAux v fuel o2 p bb c)
              v pts { aabb with locCode := lc } lc l oacc).points).isSome →
            (List.lookup k oacc.points).isSome ∨ (∃ j ∈ l, k = 8 * lc + j) ∨
              (List.lookup (k / 8) (Octree.childFold
                (fun o2 p bb c => Octree.buildAux v fuel o2 p bb c)
                v pts { aabb with locCode := lc } lc l oacc).points).isSome := by
        intro l
        induction l with
        | nil =>
          intro _ _ oacc _ _ _ k h
          exact Or.inl h
        | cons i rest ihl =>
          intro hmem hnd oacc hmaxd hfree hkeqa k
          have hi : i < 8 := hmem i (List.mem_cons_self i rest)
          have hrest : ∀ j ∈ rest, j < 8 := fun j hj => hmem j (List.mem_cons_of_mem i hj)
          have hndr : rest.Nodup := (List.nodup_cons.mp hnd).2
          have hinr : i ∉ rest := (List.nodup_cons.mp hnd).1
          rw [Octree.childFold]
          try simp only []
          split
          · intro h
            rcases ihl hrest hndr oacc hmaxd
                (fun j hj => hfree j (List.mem_cons_of_mem i hj)) hkeqa k h with
              h2 | ⟨j, hj, hk⟩ | h2
            · exact Or.inl h2
            · exact Or.inr (Or.inl ⟨j, List.mem_cons_of_mem i hj, hk⟩)
            · exact Or.inr (Or.inr h2)
          · have hgen : Octree.generateLocCode lc i = 8 * lc + i := genLocCode_eq hlc hi
            rw [hgen]
            have hP : (0 : ℕ) < 8 ^ dd := Nat.pos_pow_of_pos dd (by norm_num)
            have hcW1 : 8 ^ (dd + 1) ≤ 8 * lc + i := by
              rw [pow_succ]
              omega
            have hcW2 : 8 * lc + i < 2 * 8 ^ (dd + 1) := by
              rw [pow_succ]
              omega
            have hchildfresh := fun k2 hk2 => hfree i (List.mem_cons_self i rest) k2 hk2
            have hstep := ih oacc
              (pts.filter (fun idx =>
                Octree.pointOctant v ({ aabb with locCode := lc } : AABB).center idx == i))
              (Octree.childAABB { aabb with locCode := lc } i) (8 * lc + i) (dd + 1)
              hcW1 hcW2 (by omega) (by omega) hchildfresh hkeqa
            have hkeys := buildAux_keys v fuel oacc
              (pts.filter (fun idx =>
                Octree.pointOctant v ({ aabb with locCode := lc } : AABB).center idx == i))
              (Octree.childAABB { aabb with locCode := lc } i) (8 * lc + i) (dd + 1)
              hcW1 hcW2 (by omega) (by omega) hchildfresh hkeqa
            set o2 := Octree.buildAux v fuel oacc
              (pts.filter (fun idx =>
                Octree.pointOctant v ({ aabb with locCode := lc } : AABB).center idx == i))
              (Octree.childAABB { aabb with locCode := lc } i) (8 * lc + i) with ho2
            have ho2f := buildAux_fields v fuel oacc
              (pts.filter (fun idx =>
                Octree.pointOctant v ({ aabb with locCode := lc } : AABB).center idx == i))
              (Octree.childAABB { aabb with locCode := lc } i) (8 * lc + i)
            have hfree2 : ∀ j ∈ rest, ∀ k2, Octree.desc (8 * lc + j) k2 →
                List.lookup k2 o2.points = none ∧ List.lookup k2 o2.aabbs = none := by
              intro j hj k2 hk2
              have hij : i ≠ j := fun h => hinr (h ▸ hj)
              have hnotd : ¬ Octree.desc (8 * lc + i) k2 := fun hd =>
                desc_child_disjoint hlc hi (hrest j hj) hij hd hk2
              have hnp : List.lookup k2 o2.points = none := by
                by_contra hne
                have hs : (List.lookup k2 o2.points).isSome :=
                  Option.ne_none_iff_isSome.mp hne
                rcases (hkeys k2).2 hs with h | ⟨n, hn, hb1, hb2⟩
                · have hnone := (hfree j (List.mem_cons_of_mem i hj) k2 hk2).1
                  rw [hnone] at h
                  simp at h
                · exact hnotd ⟨n, hb1, hb2⟩
              refine ⟨hnp, ?_⟩
              by_contra hne
              have hs : (List.lookup k2 o2.aabbs).isSome :=
                Option.ne_none_iff_isSome.mp hne
              have hs2 : (List.lookup k2 o2.points).isSome := (hkeys k2).1.mpr hs
              rw [hnp] at hs2
              simp at hs2
            intro h
            rcases ihl hrest hndr o2 (by rw [ho2f.2, hmaxd]) hfree2
                (fun k2 => (hkeys k2).1) k h with
              h2 | ⟨j, hj, hk⟩ | h2
            · rcases hstep k h2 with h3 | h3 | h3
              · exact Or.inl h3
              · exact Or.inr (Or.inl ⟨i, List.mem_cons_self i rest, h3⟩)
              · refine Or.inr (Or.inr ?_)
                exact (childFold_grow v fuel pts { aabb with locCode := lc } lc
                  rest o2 (k / 8)).1 h3
            · exact Or.inr (Or.inl ⟨j, List.mem_cons_of_mem i hj, hk⟩)
            · exact Or.inr (Or.inr h2)
      have hfree1 : ∀ j ∈ List.range 8, ∀ k2, Octree.desc (8 * lc + j) k2 →
          List.lookup k2 (store o.points lc none) = none ∧
          List.lookup k2 (store o.aabbs lc { aabb with locCode := lc }) = none := by
        intro j hj k2 hk2
        have hj8 : j < 8 := by simpa using hj
        have hkne : k2 ≠ lc := desc_child_ne hlc hk2
        have hdesc : Octree.desc lc k2 := desc_child_region hj8 hk2
        rw [store_lookup_ne _ _ hkne, store_lookup_ne _ _ hkne]
        exact hfresh k2 hdesc
      have hkeq1 : ∀ k2, (List.lookup k2 (store o.points lc none)).isSome ↔
          (List.lookup k2 (store o.aabbs lc { aabb with locCode := lc })).isSome := by
        intro k2
        rw [store_isSome_iff, store_isSome_iff]
        constructor
        · rintro (rfl | h)
          · exact Or.inl rfl
          · exact Or.inr ((hkeq k2).mp h)
        · rintro (rfl | h)
          · exact Or.inl rfl
          · exact Or.inr ((hkeq k2).mpr h)
      intro k hs
      rcases hfold (List.range 8) (by intro i hi; simpa using hi)
          (List.nodup_range 8)
          { o with points := store o.points lc none,
                   aabbs := store o.aabbs lc { aabb with locCode := lc } }
          rfl hfree1 hkeq1 k hs with h2 | ⟨j, hj, hk⟩ | h2
      · have h3 : (List.lookup k (store o.points lc none)).isSome := h2
        rw [store_isSome_iff] at h3
        rcases h3 with rfl | h4
        · exact Or.inr (Or.inl rfl)
        · exact Or.inl h4
      · subst hk
        refine Or.inr (Or.inr ?_)
        have hj8 : j < 8 := by simpa using hj
        have hdiv : (8 * lc + j) / 8 = lc := by omega
        rw [hdiv]
        apply (childFold_grow v fuel pts { aabb with locCode := lc } lc
          (List.range 8) _ lc).1
        show (List.lookup lc (store o.points lc none)).isSome
        rw [store_lookup_self]
        rfl
      · exact Or.inr (Or.inr h2)

theorem buildAux_leaf (v : ℕ → ℚ) :
    ∀ (fuel : ℕ) (o : Octree) (pts : List ℕ) (aabb : AABB) (lc dd : ℕ),
      8 ^ dd ≤ lc → lc < 2 * 8 ^ dd → dd ≤ o.maxDepth →
      o.maxDepth + 1 ≤ fuel + dd →
      (∀ k, Octree.desc lc k →
        List.lookup k o.points = none ∧ List.lookup k o.aabbs = none) →
      (∀ k, (List.lookup k o.points).isSome ↔ (List.lookup k o.aabbs).isSome) →
      ∀ k, Octree.desc lc k →
        (List.lookup k (Octree.buildAux v fuel o pts aabb lc).points = some none →
          Octree.getDepth k < (o.maxDepth : ℚ) ∧
            ∃ i, i < 8 ∧ (List.lookup (8 * k + i)
              (Octree.buildAux v fuel o pts aabb lc).aabbs).isSome) ∧
        (∀ l2, List.lookup k (Octree.buildAux v fuel o pts aabb lc).points =
            some (some l2) →
          (l2.length ≤ o.threshold ∨ Octree.getDepth k = (o.maxDepth : ℚ)) ∧
          ∀ k2, Octree.desc k k2 → k2 ≠ k →
            List.lookup k2 (Octree.buildAux v fuel o pts aabb lc).points = none ∧
            List.lookup k2 (Octree.buildAux v fuel o pts aabb lc).aabbs = none) := by
  intro fuel
  induction fuel with
  | zero =>
    intro o pts aabb lc dd hW1 hW2 hdd hfuel hfresh hkeq
    omega
  | succ fuel ih =>
    intro o pts aabb lc dd hW1 hW2 hdd hfuel hfresh hkeq
    have hlc : 1 ≤ lc := le_trans (Nat.one_le_pow dd 8 (by norm_num)) hW1
    have hdepth : Octree.getDepth lc = (dd : ℚ) := getDepth_of_interval hW1 hW2
    rw [Octree.buildAux.eq_def]
    simp only []
    split
    · -- terminal leaf at lc
      rename_i hterm
      intro k hk
      by_cases hkl : k = lc
      · subst hkl
        rw [store_store]
        constructor
        · intro h
          rw [store_lookup_self] at h
          simp at h
        · intro l2 hl2
          rw [store_lookup_self] at hl2
          have hl2' : l2 = pts := by
            injection hl2 with h1
            injection h1 with h2
            exact h2.symm
          subst hl2'
          constructor
          · rcases hterm with h | h
            · exact Or.inl h
            · refine Or.inr ?_
              rw [hdepth] at h ⊢
              have : o.maxDepth ≤ dd := by exact_mod_cast h
              have : dd = o.maxDepth := by omega
              rw [this]
          · intro k2 hk2 hk2ne
            have hk2lc : Octree.desc k k2 := hk2
            constructor
            · show List.lookup k2 (store o.points k (some l2)) = none
              rw [store_lookup_ne _ _ hk2ne]
              exact (hfresh k2 hk2lc).1
            · show List.lookup k2 (store o.aabbs k { aabb with locCode := k }) = none
              rw [store_lookup_ne _ _ hk2ne]
              exact (hfresh k2 hk2lc).2
      · have hnone : List.lookup k
            (store (store o.points lc none) lc (some pts)) = none := by
          rw [store_store, store_lookup_ne _ _ hkl]
          exact (hfresh k hk).1
        constructor
        · intro h
          rw [hnone] at h
          simp at h
        · intro l2 hl2
          rw [hnone] at hl2
          simp at hl2
    · -- subdivision
      rename_i hterm
      have hddlt : dd < o.maxDepth := by
        push_neg at hterm
        have h2 := hterm.2
        rw [hdepth] at h2
        exact_mod_cast h2
      have hfuel1 : 1 ≤ fuel := by omega
      have hfold : ∀ (l : List ℕ), (∀ i ∈ l, i < 8) → l.Nodup →
          ∀ oacc : Octree, oacc.maxDepth = o.maxDepth → oacc.threshold = o.threshold →
          (∀ j ∈ l, ∀ k, Octree.desc (8 * lc + j) k →
            List.lookup k oacc.points = none ∧ List.lookup k oacc.aabbs = none) →
          (∀ k, (List.lookup k oacc.points).isSome ↔
            (List.lookup k oacc.aabbs).isSome) →
          (∀ j ∈ l, pts.filter (fun idx =>
              Octree.pointOctant v ({ aabb with locCode := lc } : AABB).center idx
                == j) ≠ [] →
            (List.lookup (8 * lc + j) (Octree.childFold
              (fun o2 p bb c => Octree.buildAux v fuel o2 p bb c)
              v pts { aabb with locCode := lc } lc l oacc).aabbs).isSome) ∧
          (∀ j ∈ l, ∀ k, Octree.desc (8 * lc + j) k →
            (List.lookup k (Octree.childFold
                (fun o2 p bb c => Octree.buildAux v fuel o2 p bb c)
                v pts { aabb with locCode := lc } lc l oacc).points = some none →
              Octree.getDepth k < (o.maxDepth : ℚ) ∧
                ∃ i2, i2 < 8 ∧ (List.lookup (8 * k + i2) (Octree.childFold
                  (fun o2 p bb c => Octree.buildAux v fuel o2 p bb c)
                  v pts { aabb with locCode := lc } lc l oacc).aabbs).isSome) ∧
            (∀ l2, List.lookup k (Octree.childFold
                (fun o2 p bb c => Octree.buildAux v fuel o2 p bb c)
                v pts { aabb with locCode := lc } lc l oacc).points =
                some (some l2) →
              (l2.length ≤ o.threshold ∨
                Octree.getDepth k = (o.maxDepth : ℚ)) ∧
              ∀ k2, Octree.desc k k2 → k2 ≠ k →
                List.lookup k2 (Octree.childFold
                  (fun o2 p bb c => Octree.buildAux v fuel o2 p bb c)
                  v pts { aabb with locCode := lc } lc l oacc).points = none ∧
                List.lookup k2 (Octree.childFold
                  (fun o2 p bb c => Octree.buildAux v fuel o2 p bb c)
                  v pts { aabb with locCode := lc } lc l oacc).aabbs = none)) := by
        intro l
        induction l with
        | nil =>
          intro _ _ oacc _ _ _ _
          exact ⟨by simp, by simp⟩
        | cons i rest ihl =>
          intro hmem hnd oacc hmaxd hthr hfree hkeqa
          have hi : i < 8 := hmem i (List.mem_cons_self i rest)
          have hrest : ∀ j ∈ rest, j < 8 := fun j hj => hmem j (List.mem_cons_of_mem i hj)
          have hndr : rest.Nodup := (List.nodup_cons.mp hnd).2
          have hinr : i ∉ rest := (List.nodup_cons.mp hnd).1
          rw [Octree.childFold]
          try simp only []
          split
          · -- empty octant: no child node for i
            rename_i hempty
            have hnil : pts.filter (fun idx =>
                Octree.pointOctant v ({ aabb with locCode := lc } : AABB).center idx
                  == i) = [] := by
              rwa [← List.isEmpty_iff]
            have hsub := ihl hrest hndr oacc hmaxd hthr
              (fun j hj => hfree j (List.mem_cons_of_mem i hj)) hkeqa
            constructor
            · intro j hj hne
              rcases List.mem_cons.mp hj with rfl | hjr
              · exact absurd hnil hne
              · exact hsub.1 j hjr hne
            · intro j hj k hk
              rcases List.mem_cons.mp hj with rfl | hjr
              · -- region j = i is untouched by the remaining fold
                have hfr := childFold_frame v fuel pts { aabb with locCode := lc }
                  lc hlc rest hrest oacc k (fun j2 hj2 hd => by
                    have hij2 : j ≠ j2 := fun h => hinr (h ▸ hj2)
                    exact desc_child_disjoint hlc hi (hrest j2 hj2) hij2 hk hd)
                have hkn := hfree j (List.mem_cons_self j rest) k hk
                constructor
                · intro h
                  rw [hfr.1, hkn.1] at h
                  simp at h
                · intro l2 hl2
                  rw [hfr.1, hkn.1] at hl2
                  simp at hl2
              · exact hsub.2 j hjr k hk
          · -- occupied octant: recursive build at 8 * lc + i
            have hgen : Octree.generateLocCode lc i = 8 * lc + i := genLocCode_eq hlc hi
            rw [hgen]
            have hP : (0 : ℕ) < 8 ^ dd := Nat.pos_pow_of_pos dd (by norm_num)
            have hcW1 : 8 ^ (dd + 1) ≤ 8 * lc + i := by
              rw [pow_succ]
              omega
            have hcW2 : 8 * lc + i < 2 * 8 ^ (dd + 1) := by
              rw [pow_succ]
              omega
            have hchildfresh := fun k2 hk2 => hfree i (List.mem_cons_self i rest) k2 hk2
            have hstep := ih oacc
              (pts.filter (fun idx =>
                Octree.pointOctant v ({ aabb with locCode := lc } : AABB).center idx == i))
              (Octree.childAABB { aabb with locCode := lc } i) (8 * lc + i) (dd + 1)
              hcW1 hcW2 (by omega) (by omega) hchildfresh hkeqa
            have hkeys := buildAux_keys v fuel oacc
              (pts.filter (fun idx =>
                Octree.pointOctant v ({ aabb with locCode := lc } : AABB).center idx == i))
              (Octree.childAABB { aabb with locCode := lc } i) (8 * lc + i) (dd + 1)
              hcW1 hcW2 (by omega) (by omega) hchildfresh hkeqa
            set o2 := Octree.buildAux v fuel oacc
              (pts.filter (fun idx =>
                Octree.pointOctant v ({ aabb with locCode := lc } : AABB).center idx == i))
              (Octree.childAABB { aabb with locCode := lc } i) (8 * lc + i) with ho2
            have ho2f := buildAux_fields v fuel oacc
              (pts.filter (fun idx =>
                Octree.pointOctant v ({ aabb with locCode := lc } : AABB).center idx == i))
              (Octree.childAABB { aabb with locCode := lc } i) (8 * lc + i)
            have hfree2 : ∀ j ∈ rest, ∀ k2, Octree.desc (8 * lc + j) k2 →
                List.lookup k2 o2.points = none ∧ List.lookup k2 o2.aabbs = none := by
              intro j hj k2 hk2
              have hij : i ≠ j := fun h => hinr (h ▸ hj)
              have hnotd : ¬ Octree.desc (8 * lc + i) k2 := fun hd =>
                desc_child_disjoint hlc hi (hrest j hj) hij hd hk2
              have hnp : List.lookup k2 o2.points = none := by
                by_contra hne
                have hs : (List.lookup k2 o2.points).isSome :=
                  Option.ne_none_iff_isSome.mp hne
                rcases (hkeys k2).2 hs with h | ⟨n, hn, hb1, hb2⟩
                · have hnone := (hfree j (List.mem_cons_of_mem i hj) k2 hk2).1
                  rw [hnone] at h
                  simp at h
                · exact hnotd ⟨n, hb1, hb2⟩
              refine ⟨hnp, ?_⟩
              by_contra hne
              have hs : (List.lookup k2 o2.aabbs).isSome :=
                Option.ne_none_iff_isSome.mp hne
              have hs2 : (List.lookup k2 o2.points).isSome := (hkeys k2).1.mpr hs
              rw [hnp] at hs2
              simp at hs2
            have hsub := ihl hrest hndr o2 (by rw [ho2f.2, hmaxd])
              (by rw [ho2f.1, hthr]) hfree2 (fun k2 => (hkeys k2).1)
            have hframe : ∀ k2, Octree.desc (8 * lc + i) k2 →
                List.lookup k2 (Octree.childFold
                  (fun o2 p bb c => Octree.buildAux v fuel o2 p bb c)
                  v pts { aabb with locCode := lc } lc rest o2).points =
                  List.lookup k2 o2.points ∧
                List.lookup k2 (Octree.childFold
                  (fun o2 p bb c => Octree.buildAux v fuel o2 p bb c)
                  v pts { aabb with locCode := lc } lc rest o2).aabbs =
                  List.lookup k2 o2.aabbs := by
              intro k2 hk2
              exact childFold_frame v fuel pts { aabb with locCode := lc } lc hlc
                rest hrest o2 k2 (fun j2 hj2 hd => by
                  have hij2 : i ≠ j2 := fun h => hinr (h ▸ hj2)
                  exact desc_child_disjoint hlc hi (hrest j2 hj2) hij2 hk2 hd)
            constructor
            · intro j hj hne
              rcases List.mem_cons.mp hj with rfl | hjr
              · have hself := buildAux_self_aabb v fuel oacc
                  (pts.filter (fun idx =>
                    Octree.pointOctant v ({ aabb with locCode := lc } : AABB).center idx
                      == j))
                  (Octree.childAABB { aabb with locCode := lc } j) (8 * lc + j)
                  (by omega) hfuel1
                exact (childFold_grow v fuel pts { aabb with locCode := lc } lc
                  rest o2 (8 * lc + j)).2 hself
              · exact hsub.1 j hjr hne
            · intro j hj k hk
              rcases List.mem_cons.mp hj with rfl | hjr
              · -- inside the freshly built child subtree
                have hfr := hframe k hk
                have hsteps := hstep k hk
                constructor
                · intro h
                  rw [hfr.1] at h
                  obtain ⟨hdep, i2, hi2, hmem2⟩ := hsteps.1 h
                  refine ⟨by rwa [hmaxd] at hdep, i2, hi2, ?_⟩
                  exact (childFold_grow v fuel pts { aabb with locCode := lc } lc
                    rest o2 (8 * k + i2)).2 hmem2
                · intro l2 hl2
                  rw [hfr.1] at hl2
                  obtain ⟨hlen, hbelow⟩ := hsteps.2 l2 hl2
                  constructor
                  · rcases hlen with h | h
                    · exact Or.inl (by rwa [hthr] at h)
                    · exact Or.inr (by rwa [hmaxd] at h)
                  · intro k2 hk2 hk2ne
                    have hk2reg : Octree.desc (8 * lc + j) k2 := desc_trans hk hk2
                    have hfr2 := hframe k2 hk2reg
                    have hb := hbelow k2 hk2 hk2ne
                    rw [hfr2.1, hfr2.2]
                    exact hb
              · exact hsub.2 j hjr k hk
      -- assemble the top node
      have hfree1 : ∀ j ∈ List.range 8, ∀ k2, Octree.desc (8 * lc + j) k2 →
          List.lookup k2 (store o.points lc none) = none ∧
          List.lookup k2 (store o.aabbs lc { aabb with locCode := lc }) = none := by
        intro j hj k2 hk2
        have hj8 : j < 8 := by simpa using hj
        have hkne : k2 ≠ lc := desc_child_ne hlc hk2
        have hdesc : Octree.desc lc k2 := desc_child_region hj8 hk2
        rw [store_lookup_ne _ _ hkne, store_lookup_ne _ _ hkne]
        exact hfresh k2 hdesc
      have hkeq1 : ∀ k2, (List.lookup k2 (store o.points lc none)).isSome ↔
          (List.lookup k2 (store o.aabbs lc { aabb with locCode := lc })).isSome := by
        intro k2
        rw [store_isSome_iff, store_isSome_iff]
        constructor
        · rintro (rfl | h)
          · exact Or.inl rfl
          · exact Or.inr ((hkeq k2).mp h)
        · rintro (rfl | h)
          · exact Or.inl rfl
          · exact Or.inr ((hkeq k2).mpr h)
      have hmain := hfold (List.range 8) (by intro i hi; simpa using hi)
        (List.nodup_range 8)
        { o with points := store o.points lc none,
                 aabbs := store o.aabbs lc { aabb with locCode := lc } }
        rfl rfl hfree1 hkeq1
      intro k hk
      by_cases hkl : k = lc
      · subst hkl
        have hselfval : List.lookup k (Octree.childFold
            (fun o2 p bb c => Octree.buildAux v fuel o2 p bb c)
            v pts { aabb with locCode := k } k (List.range 8)
            { o with points := store o.points k none,
                     aabbs := store o.aabbs k { aabb with locCode := k } }).points =
            some none := by
          have hfr := childFold_frame v fuel pts { aabb with locCode := k } k hlc
            (List.range 8) (by intro i hi; simpa using hi)
            { o with points := store o.points k none,
                     aabbs := store o.aabbs k { aabb with locCode := k } }
            k (fun i hi hd => desc_child_ne hlc hd rfl)
          rw [hfr.1]
          exact store_lookup_self ..
        constructor
        · intro _
          refine ⟨by rw [hdepth]; exact_mod_cast hddlt, ?_⟩
          -- some octant is non-empty: the first point of pts lands somewhere
          have hlen : o.threshold < pts.length := by
            push_neg at hterm
            exact hterm.1
          have hx : ∃ x, x ∈ pts := by
            cases pts with
            | nil => simp at hlen
            | cons a t => exact ⟨a, List.mem_cons_self a t⟩
          obtain ⟨x, hxmem⟩ := hx
          set i0 := Octree.pointOctant v ({ aabb with locCode := k } : AABB).center x
            with hi0
          have hi08 : i0 < 8 := pointOctant_lt ..
          have hne : pts.filter (fun idx =>
              Octree.pointOctant v ({ aabb with locCode := k } : AABB).center idx
                == i0) ≠ [] := by
            apply List.ne_nil_of_mem (a := x)
            apply List.mem_filter.mpr
            exact ⟨hxmem, by simp⟩
          exact ⟨i0, hi08, hmain.1 i0 (by simpa using hi08) hne⟩
        · intro l2 hl2
          rw [hselfval] at hl2
          simp at hl2
      · obtain ⟨j, hj8, hjdesc⟩ := desc_elim_child hk hkl
        exact hmain.2 j (by simpa using hj8) k hjdesc

/-- The key-set facts of `buildAux` specialised to the library's entry point:
a fresh `Octree.make t d` built from root code `1` with fuel `maxDepth + 1`.
Every key of the points map is also a key of the box map and lies in the
depth-`n` code band `[8 ^ n, 2 * 8 ^ n)` for some `n ≤ maxDepth`. -/
theorem build_keys (t d : ℕ) (pts : List ℕ) (v : ℕ → ℚ) (b : AABB) (k : ℕ) :
    ((List.lookup k ((Octree.make t d).build pts v b).points).isSome ↔
      (List.lookup k ((Octree.make t d).build pts v b).aabbs).isSome) ∧
    ((List.lookup k ((Octree.make t d).build pts v b).points).isSome →
      ∃ n, n ≤ (Octree.make t d).maxDepth ∧ 8 ^ n ≤ k ∧ k < 2 * 8 ^ n) := by
  have h := buildAux_keys v ((Octree.make t d).maxDepth + 1) (Octree.make t d)
    pts b 1 0 (by norm_num) (by norm_num) (by omega) (by omega)
    (fun k _ => ⟨rfl, rfl⟩) (fun k => Iff.rfl) k
  refine ⟨h.1, fun hs => ?_⟩
  rcases h.2 hs with h' | ⟨n, hn, h1, h2⟩
  · rw [show (Octree.make t d).points = [] from rfl] at h'
    simp at h'
  · exact ⟨n, by omega, by omega, by omega⟩

/-- The leaf/internal dichotomy of `buildAux` specialised to the entry point:
a `some none` (internal) entry sits strictly above `maxDepth` and has a child
box, while a `some (some l)` (leaf) entry satisfies the terminal condition and
has no descendants at all. -/
theorem build_leaf (t d : ℕ) (pts : List ℕ) (v : ℕ → ℚ) (b : AABB) (k : ℕ)
    (hk : Octree.desc 1 k) :
    (List.lookup k ((Octree.make t d).build pts v b).points = some none →
      Octree.getDepth k < ((Octree.make t d).maxDepth : ℚ) ∧
        ∃ i, i < 8 ∧ (List.lookup (8 * k + i)
          ((Octree.make t d).build pts v b).aabbs).isSome) ∧
    (∀ l2, List.lookup k ((Octree.make t d).build pts v b).points =
        some (some l2) →
      (l2.length ≤ (Octree.make t d).threshold ∨
        Octree.getDepth k = ((Octree.make t d).maxDepth : ℚ)) ∧
      ∀ k2, Octree.desc k k2 → k2 ≠ k →
        List.lookup k2 ((Octree.make t d).build pts v b).points = none ∧
        List.lookup k2 ((Octree.make t d).build pts v b).aabbs = none) :=
  buildAux_leaf v ((Octree.make t d).maxDepth + 1) (Octree.make t d)
    pts b 1 0 (by norm_num) (by norm_num) (by omega) (by omega)
    (fun k _ => ⟨rfl, rfl⟩) (fun k => Iff.rfl) k hk

/-- Parent closure of `buildAux` specialised to the entry point: every key of
the points map is the root or has its parent `k / 8` as a key. -/
theorem build_parent (t d : ℕ) (pts : List ℕ) (v : ℕ → ℚ) (b : AABB) (k : ℕ)
    (hk : (List.lookup k ((Octree.make t d).build pts v b).points).isSome) :
    k = 1 ∨
      (List.lookup (k / 8) ((Octree.make t d).build pts v b).points).isSome := by
  have h := buildAux_parent v ((Octree.make t d).maxDepth + 1) (Octree.make t d)
    pts b 1 0 (by norm_num) (by norm_num) (by omega) (by omega)
    (fun k _ => ⟨rfl, rfl⟩) (fun k => Iff.rfl) k hk
  rcases h with h' | h
  · rw [show (Octree.make t d).points = [] from rfl] at h'
    simp at h'
  · exact h

/-- Iterating parent closure: an `m`-fold ancestor `k / 8 ^ m` of a key `k`
with `8 ^ m ≤ k` is again a key. -/
theorem build_ancestor (t d : ℕ) (pts : List ℕ) (v : ℕ → ℚ) (b : AABB) :
    ∀ (m k : ℕ), 8 ^ m ≤ k →
      (List.lookup k ((Octree.make t d).build pts v b).points).isSome →
      (List.lookup (k / 8 ^ m)
        ((Octree.make t d).build pts v b).points).isSome := by
  intro m
  induction m with
  | zero =>
    intro k _ hk
    simpa using hk
  | succ m ihm =>
    intro k hk hs
    have h88 : (8:ℕ) ≤ 8 ^ (m + 1) := by
      calc (8:ℕ) = 8 ^ 1 := (pow_one 8).symm
      _ ≤ 8 ^ (m + 1) := Nat.pow_le_pow_right (by norm_num) (by omega)
    have hne : k ≠ 1 := by omega
    rcases build_parent t d pts v b k hs with h1 | hp
    · exact absurd h1 hne
    · have hk8 : 8 ^ m ≤ k / 8 := by
        rw [Nat.le_div_iff_mul_le (by norm_num)]
        calc 8 ^ m * 8 = 8 ^ (m + 1) := by rw [pow_succ]
        _ ≤ k := hk
      have hres := ihm (k / 8) hk8 hp
      rw [Nat.div_div_eq_div_mul] at hres
      rwa [show 8 * 8 ^ m = 8 ^ (m + 1) from by rw [pow_succ]; ring] at hres

/-- `getParent` iterated `n` times divides by `8 ^ n`. -/
theorem getParent_iterate (n : ℕ) : ∀ k, Octree.getParent^[n] k = k / 8 ^ n := by
  induction n with
  | zero =>
    intro k
    simp
  | succ n ihn =>
    intro k
    rw [Function.iterate_succ_apply, getParent_div, ihn, Nat.div_div_eq_div_mul]
    congr 1
    rw [pow_succ]
    ring

/-- C8: in every built octree, every node key `k` of the box map satisfies
`getDepth k ≤ maxDepth`; a node at depth exactly `maxDepth` is a leaf (stores
an actual index list); and a leaf strictly above `maxDepth` holds at most
`threshold` points — the terminal condition of `build`. -/
theorem build_depth_invariants (t d : ℕ) (pts : List ℕ) (v : ℕ → ℚ) (b : AABB)
    (k : ℕ) (hk : (List.lookup k ((Octree.make t d).build pts v b).aabbs).isSome) :
    Octree.getDepth k ≤ ((Octree.make t d).maxDepth : ℚ) ∧
    (Octree.getDepth k = ((Octree.make t d).maxDepth : ℚ) →
      ∃ l, List.lookup k ((Octree.make t d).build pts v b).points =
        some (some l)) ∧
    (∀ l, List.lookup k ((Octree.make t d).build pts v b).points =
        some (some l) →
      Octree.getDepth k < ((Octree.make t d).maxDepth : ℚ) →
      l.length ≤ (Octree.make t d).threshold) := by
  have hkp : (List.lookup k ((Octree.make t d).build pts v b).points).isSome :=
    (build_keys t d pts v b k).1.mpr hk
  obtain ⟨n, hn, h1, h2⟩ := (build_keys t d pts v b k).2 hkp
  have hdep : Octree.getDepth k = (n : ℚ) := getDepth_of_interval h1 h2
  have hdesc : Octree.desc 1 k := ⟨n, by omega, by omega⟩
  have hleaf := build_leaf t d pts v b k hdesc
  refine ⟨?_, ?_, ?_⟩
  · rw [hdep]
    exact_mod_cast hn
  · intro hdmax
    obtain ⟨x, hx⟩ := Option.isSome_iff_exists.mp hkp
    cases x with
    | none =>
      have hlt := (hleaf.1 hx).1
      rw [hdmax] at hlt
      exact absurd hlt (lt_irrefl _)
    | some l => exact ⟨l, hx⟩
  · intro l hl hdlt
    rcases (hleaf.2 l hl).1 with h | h
    · exact h
    · rw [h] at hdlt
      exact absurd hdlt (lt_irrefl _)

theorem build_depth_invariants_witness :
    Octree.getDepth 1 ≤ (((Octree.make 2 4)).maxDepth : ℚ) :=
  (build_depth_invariants 2 4 [0] vExample rootExample 1 (by decide)).1

/-- C10: in every built octree, every key of the box map other than the root
code `1` has its parent `k >>> 3` as a key, and iterating `getParent` reaches
the root: the box map is a single tree rooted at `1`. -/
theorem build_parent_closed (t d : ℕ) (pts : List ℕ) (v : ℕ → ℚ) (b : AABB)
    (k : ℕ) (hk : (List.lookup k ((Octree.make t d).build pts v b).aabbs).isSome) :
    (k ≠ 1 → (List.lookup (Octree.getParent k)
      ((Octree.make t d).build pts v b).aabbs).isSome) ∧
    ∃ j, Octree.getParent^[j] k = 1 := by
  have hkp : (List.lookup k ((Octree.make t d).build pts v b).points).isSome :=
    (build_keys t d pts v b k).1.mpr hk
  obtain ⟨n, hn, h1, h2⟩ := (build_keys t d pts v b k).2 hkp
  constructor
  · intro hne
    rcases build_parent t d pts v b k hkp with h | h
    · exact absurd h hne
    · rw [getParent_div]
      exact (build_keys t d pts v b (k / 8)).1.mp h
  · refine ⟨n, ?_⟩
    rw [getParent_iterate]
    exact desc_div_eq (by omega) (by omega)

theorem build_parent_closed_witness :
    ∃ j, Octree.getParent^[j] 1 = 1 :=
  (build_parent_closed 2 4 [0] vExample rootExample 1 (by decide)).2

/-- C6 (amended): in every built octree, a key of the points map holds `null`
exactly when the node is internal, i.e. has at least one child in the box
map; leaf keys hold an actual index list. -/
theorem points_null_iff_internal (t d : ℕ) (pts : List ℕ) (v : ℕ → ℚ) (b : AABB)
    (k : ℕ)
    (hk : (List.lookup k ((Octree.make t d).build pts v b).points).isSome) :
    List.lookup k ((Octree.make t d).build pts v b).points = some none ↔
      ∃ i, i < 8 ∧ (List.lookup (8 * k + i)
        ((Octree.make t d).build pts v b).aabbs).isSome := by
  obtain ⟨n, hn, h1, h2⟩ := (build_keys t d pts v b k).2 hk
  have hk1 : 1 ≤ k := le_trans (Nat.one_le_pow n 8 (by norm_num)) h1
  have hdesc : Octree.desc 1 k := ⟨n, by omega, by omega⟩
  have hleaf := build_leaf t d pts v b k hdesc
  constructor
  · exact fun h => (hleaf.1 h).2
  · rintro ⟨i, hi, hmem⟩
    obtain ⟨x, hx⟩ := Option.isSome_iff_exists.mp hk
    cases x with
    | none => exact hx
    | some l =>
      have hbelow := (hleaf.2 l hx).2 (8 * k + i) (desc_child k hi) (by omega)
      rw [hbelow.2] at hmem
      simp at hmem

theorem points_null_iff_internal_witness :
    List.lookup 1 ((Octree.make 2 4).build [0, 1, 2, 3, 4] vExample
        rootExample).points = some none ↔
      ∃ i, i < 8 ∧ (List.lookup (8 * 1 + i) ((Octree.make 2 4).build
        [0, 1, 2, 3, 4] vExample rootExample).aabbs).isSome :=
  points_null_iff_internal 2 4 [0, 1, 2, 3, 4] vExample rootExample 1 (by decide)

/-- Soundness of the fuel-bounded traversal: every visited location code is a
key of the box map and a strict descendant of the starting code. -/
theorem traverseAux_sound (o : Octree) :
    ∀ (fuel lc : ℕ), 1 ≤ lc → ∀ k,
      k ∈ (o.traverseAux fuel lc).map (fun tr => tr.2.2) →
      (List.lookup k o.aabbs).isSome ∧ Octree.desc lc k ∧ k ≠ lc := by
  intro fuel
  induction fuel with
  | zero =>
    intro lc hlc k hk
    simp [Octree.traverseAux] at hk
  | succ fuel ihf =>
    intro lc hlc k hk
    rw [Octree.traverseAux] at hk
    rw [List.map_flatMap, List.mem_flatMap] at hk
    obtain ⟨i, hi, hmem⟩ := hk
    have hi8 : i < 8 := by simpa using hi
    simp only [child_code_eq lc hi8] at hmem
    cases hcase : List.lookup (8 * lc + i) o.aabbs with
    | none =>
      rw [hcase] at hmem
      simp at hmem
    | some box =>
      rw [hcase] at hmem
      simp only [List.map_cons] at hmem
      rcases List.mem_cons.mp hmem with rfl | htail
      · exact ⟨by rw [hcase]; rfl, desc_child lc hi8, by omega⟩
      · have hrec := ihf (8 * lc + i) (by omega) k htail
        refine ⟨hrec.1, desc_child_region hi8 hrec.2.1, ?_⟩
        have := desc_le hrec.2.1
        omega

/-- Completeness of the traversal on a built octree: every key in the code
band `n ≥ 1` levels below the start code `lc` is visited, provided the fuel
covers the relative depth.  Uses parent closure to find the intermediate
child on the path from `lc` to `k`. -/
theorem build_traverse_complete (t d : ℕ) (pts : List ℕ) (v : ℕ → ℚ) (b : AABB) :
    ∀ (n fuel lc k : ℕ), 1 ≤ lc →
      (List.lookup k ((Octree.make t d).build pts v b).points).isSome →
      lc * 8 ^ n ≤ k → k < (lc + 1) * 8 ^ n → 1 ≤ n → n ≤ fuel →
      k ∈ (((Octree.make t d).build pts v b).traverseAux fuel lc).map
        (fun tr => tr.2.2) := by
  intro n
  induction n with
  | zero =>
    intro fuel lc k _ _ _ _ h10
    omega
  | succ n ihn =>
    intro fuel lc k hlc hk h1 h2 h1n hnf
    obtain ⟨fuel', rfl⟩ : ∃ f, fuel = f + 1 := ⟨fuel - 1, by omega⟩
    have hdiv := desc_interval_div h1 h2 (m := n) (by omega)
    rw [show n + 1 - n = 1 from by omega, pow_one] at hdiv
    have hpow : (0:ℕ) < 8 ^ n := Nat.pos_pow_of_pos n (by norm_num)
    have hck : 8 ^ n ≤ k := by
      calc 8 ^ n ≤ 8 ^ (n + 1) := Nat.pow_le_pow_right (by norm_num) (by omega)
      _ = 1 * 8 ^ (n + 1) := (one_mul _).symm
      _ ≤ lc * 8 ^ (n + 1) := Nat.mul_le_mul_right _ hlc
      _ ≤ k := h1
    have hckey := build_ancestor t d pts v b n k hck hk
    have hcb : (List.lookup (k / 8 ^ n)
        ((Octree.make t d).build pts v b).aabbs).isSome :=
      (build_keys t d pts v b (k / 8 ^ n)).1.mp hckey
    obtain ⟨i, hi8, hic⟩ : ∃ i, i < 8 ∧ k / 8 ^ n = 8 * lc + i :=
      ⟨k / 8 ^ n - 8 * lc, by omega, by omega⟩
    rw [Octree.traverseAux]
    rw [List.map_flatMap, List.mem_flatMap]
    refine ⟨i, by simpa using hi8, ?_⟩
    simp only [child_code_eq lc hi8]
    rw [hic] at hcb
    obtain ⟨box, hbox⟩ := Option.isSome_iff_exists.mp hcb
    rw [hbox]
    simp only [List.map_cons]
    rcases Nat.eq_zero_or_pos n with rfl | hn1
    · have hkc : k / 8 ^ 0 = k := by simp
      rw [hkc] at hic
      rw [hic]
      exact List.mem_cons_self _ _
    · refine List.mem_cons_of_mem _ ?_
      have hmod := Nat.div_add_mod k (8 ^ n)
      have hmlt := Nat.mod_lt k hpow
      refine ihn fuel' (8 * lc + i) k (by omega) hk ?_ ?_ hn1 (by omega)
      · rw [← hic]
        calc (k / 8 ^ n) * 8 ^ n = 8 ^ n * (k / 8 ^ n) := by ring
        _ ≤ 8 ^ n * (k / 8 ^ n) + k % 8 ^ n := Nat.le_add_right _ _
        _ = k := hmod
      · rw [← hic]
        calc k = 8 ^ n * (k / 8 ^ n) + k % 8 ^ n := hmod.symm
        _ < 8 ^ n * (k / 8 ^ n) + 8 ^ n := by omega
        _ = (k / 8 ^ n + 1) * 8 ^ n := by ring

/-- C3 (amended): for every built octree, `traverse` visits exactly the keys
of the box map other than the root code `1` — the root node itself, although
it always has a recorded box, is never passed to the callback, because the
traversal only ever visits child codes of the node it starts at. -/
theorem build_traverse_visits (t d : ℕ) (pts : List ℕ) (v : ℕ → ℚ) (b : AABB)
    (k : ℕ) :
    k ∈ ((Octree.make t d).build pts v b).visitedCodes ↔
      (List.lookup k ((Octree.make t d).build pts v b).aabbs).isSome ∧
        k ≠ 1 := by
  constructor
  · intro hk
    have hres := traverseAux_sound ((Octree.make t d).build pts v b)
      (((Octree.make t d).build pts v b).maxDepth + 1) 1 (by norm_num) k hk
    exact ⟨hres.1, hres.2.2⟩
  · rintro ⟨hs, hne⟩
    have hkp : (List.lookup k
        ((Octree.make t d).build pts v b).points).isSome :=
      (build_keys t d pts v b k).1.mpr hs
    obtain ⟨n, hn, h1, h2⟩ := (build_keys t d pts v b k).2 hkp
    have hn1 : 1 ≤ n := by
      rcases Nat.eq_zero_or_pos n with rfl | h
      · simp at h1 h2
        omega
      · exact h
    have hmd : ((Octree.make t d).build pts v b).maxDepth =
        (Octree.make t d).maxDepth :=
      buildAux_fields v ((Octree.make t d).maxDepth + 1) (Octree.make t d)
        pts b 1 |>.2
    exact build_traverse_complete t d pts v b n
      (((Octree.make t d).build pts v b).maxDepth + 1) 1 k (by norm_num) hkp
      (by omega) (by omega) hn1 (by omega)
